import Mathlib

/-!
# Selective-repeat transport (`sr.c`): shallow embedding

The sender (`A_*`) and receiver (`B_*`) callbacks of `sr.c` are embedded as pure
functions on explicit state records.

* C `int` variables are integers (`Int`); the sequence-number arithmetic the code
  performs on in-range values never leaves `[0, 14)`, far from the `int` limits.
  The additions of `ComputeChecksum`, which run over arbitrary packet fields, are
  32-bit: each result is wrapped around modulo 2^32 (`wrapInt`), as in the compiled
  code.
* A payload byte is a C `char`: one of 256 values (`Byte`), read as an `int` by
  `charValue`.
* C `%` truncates towards zero: it is `Int.tmod`, written `cmod` here.
* The arrays `buffer`, `acked`, `B_buffer`, `B_received` have exactly `SEQSPACE`
  slots (`Fin SEQSPACE → _`).  Every subscript is an `int` in the source; an access
  with a subscript outside `[0, SEQSPACE)` is undefined behaviour in C and is the
  fault `outOfBounds` here.
* The two `while` loops take a fuel argument that bounds the number of loop tests;
  running out of it is the fault `outOfFuel`.
* Calls into the emulator (`tolayer3`, `starttimer`, `tolayer5`) are recorded, in
  call order, as a list of `Event`s.  The statistics counters of the emulator are
  the record `Stats`.  `printf` tracing is not modelled.
* The array `timers` is never read or written by the code and is left out.
-/

set_option maxRecDepth 8000

namespace SR

/-! ## Constants and data -/

/-- The `SEQSPACE` constant of `sr.c`. -/
abbrev SEQSPACE : Nat := 7

/-- The `WINDOWSIZE` constant of `sr.c`. -/
abbrev WINDOWSIZE : Nat := 6

/-- The `NOTINUSE` constant of `sr.c`. -/
abbrev NOTINUSE : Int := -1

/-- The `RTT` constant of `sr.c` (the literal `16.0`). -/
abbrev RTT : Rat := 16

/-- The C operator `%` on `int`: remainder of the division truncated towards zero. -/
abbrev cmod (a b : Int) : Int := Int.tmod a b

/-- A C `char`, the type of a payload byte: one of 256 values. -/
abbrev Byte : Type := Fin 256

/-- The value `(int)c` of a `char` `c`.  The type `char` is taken to be signed: the
bytes 0, ..., 127 have the values 0, ..., 127 and the bytes 128, ..., 255 the values
-128, ..., -1.  (With an unsigned `char` only the values of the bytes 128, ..., 255
differ: they are 128, ..., 255.) -/
def charValue (c : Byte) : Int :=
  if c.val < 128 then (c.val : Int) else (c.val : Int) - 256

/-- The 32-bit `int` that an `int` addition with the exact result `x` leaves in the
compiled code: `x` wrapped around modulo 2^32 into `[-2^31, 2^31)`, which is `x` itself
when `x` is in that range.  (The C standard leaves an `int` addition that overflows
undefined; two's complement hardware wraps.) -/
def wrapInt (x : Int) : Int :=
  (x + 2147483648) % 4294967296 - 2147483648

/-- Modelled from the spec: `struct pkt` of the missing `emulator.h`
(`seqnum`, `acknum`, `checksum` and a payload of 20 bytes). -/
structure pkt where
  seqnum : Int
  acknum : Int
  checksum : Int
  payload : Fin 20 → Byte

/-- Modelled from the spec: `struct msg` of the missing `emulator.h` (20 data bytes). -/
structure msg where
  data : Fin 20 → Byte

/-- Modelled from the spec: the two sides `A` and `B` named in emulator calls. -/
inductive Entity where
  | A
  | B
  deriving DecidableEq, Repr

/-- Modelled from the spec: the calls the protocol makes into the missing emulator,
`tolayer3(entity, packet)`, `starttimer(entity, increment)` and
`tolayer5(entity, payload)`. -/
inductive Event where
  | tolayer3 (e : Entity) (p : pkt)
  | starttimer (e : Entity) (increment : Rat)
  | tolayer5 (e : Entity) (data : Fin 20 → Byte)

/-- Modelled from the spec: the statistics counters declared in the missing
`emulator.h` that `sr.c` increments. -/
structure Stats where
  window_full : Int
  packets_resent : Int
  total_ACKs_received : Int
  new_ACKs : Int
  packets_received : Int
  deriving DecidableEq, Repr

/-- The ways a call can fail to produce a result in the model. -/
inductive Fault where
  | outOfBounds
  | outOfFuel
  deriving DecidableEq, Repr

/-- An `int` used as a subscript of an array of `SEQSPACE` elements. -/
def slot (i : Int) : Except Fault (Fin SEQSPACE) :=
  if h : 0 ≤ i ∧ i < (SEQSPACE : Int) then
    .ok ⟨i.toNat, by have := h.1; have := h.2; simp only [SEQSPACE] at *; omega⟩
  else .error .outOfBounds

/-- Assignment `arr[i] = v`. -/
def setSlot {α : Type} (arr : Fin SEQSPACE → α) (i : Fin SEQSPACE) (v : α) :
    Fin SEQSPACE → α :=
  fun j => if j = i then v else arr j

/-- The function `ComputeChecksum` of `sr.c`: `checksum = packet.seqnum`, then
`checksum += packet.acknum`, then `checksum += (int)(packet.payload[i])` for the 20
payload bytes.  The variable `checksum` is a 32-bit `int`: every addition wraps around
modulo 2^32. -/
def ComputeChecksum (packet : pkt) : Int :=
  (List.finRange 20).foldl
    (fun checksum i => wrapInt (checksum + charValue (packet.payload i)))
    (wrapInt (packet.seqnum + packet.acknum))

/-- The function `IsCorrupted` of `sr.c`. -/
def IsCorrupted (packet : pkt) : Bool :=
  if packet.checksum = ComputeChecksum packet then false else true

/-! ## Sender -/

/-- The sender variables `buffer`, `acked`, `A_base`, `A_nextseqnum`. -/
structure Sender where
  buffer : Fin SEQSPACE → pkt
  acked : Fin SEQSPACE → Bool
  A_base : Int
  A_nextseqnum : Int

/-- The function `A_output` of `sr.c`.  The field `sendpkt.checksum` is not yet
initialised when `ComputeChecksum(sendpkt)` is called; it is `0` here
(`ComputeChecksum` does not read it). -/
def A_output (s : Sender) (st : Stats) (message : msg) :
    Except Fault (Sender × Stats × List Event) :=
  if cmod (s.A_nextseqnum + SEQSPACE - s.A_base) SEQSPACE < WINDOWSIZE then do
    let sendpkt : pkt :=
      { seqnum := s.A_nextseqnum, acknum := NOTINUSE, checksum := 0,
        payload := fun i => message.data i }
    let sendpkt : pkt := { sendpkt with checksum := ComputeChecksum sendpkt }
    let i ← slot s.A_nextseqnum
    let s1 : Sender :=
      { s with buffer := setSlot s.buffer i sendpkt, acked := setSlot s.acked i false }
    pure ({ s1 with A_nextseqnum := cmod (s1.A_nextseqnum + 1) SEQSPACE }, st,
      [Event.tolayer3 Entity.A sendpkt, Event.starttimer Entity.A RTT])
  else
    pure (s, { st with window_full := st.window_full + 1 }, [])

/-- The loop `while (acked[A_base]) { acked[A_base] = false; A_base = (A_base + 1) % SEQSPACE; }`
of `A_input`.  The number returned next to the state counts the executions of the
loop body, that is, how many times `A_base` was advanced. -/
def A_input_slide : Nat → Sender → Except Fault (Sender × Nat)
  | 0, _ => .error .outOfFuel
  | fuel + 1, s => do
    let b ← slot s.A_base
    if s.acked b then
      let (s', k) ← A_input_slide fuel
        { s with acked := setSlot s.acked b false, A_base := cmod (s.A_base + 1) SEQSPACE }
      pure (s', k + 1)
    else
      pure (s, 0)

/-- The function `A_input` of `sr.c`.  The last component of the result is the
number of times the slide loop advanced `A_base`. -/
def A_input (fuel : Nat) (s : Sender) (st : Stats) (packet : pkt) :
    Except Fault (Sender × Stats × List Event × Nat) :=
  if !IsCorrupted packet then do
    let acknum := packet.acknum
    let a ← slot acknum
    let (s1, st1) :=
      if !s.acked a then
        ({ s with acked := setSlot s.acked a true },
         { st with total_ACKs_received := st.total_ACKs_received + 1,
                   new_ACKs := st.new_ACKs + 1 })
      else (s, st)
    let (s2, k) ← A_input_slide fuel s1
    pure (s2, st1, [], k)
  else
    pure (s, st, [], 0)

/-- One iteration of the `for` loop of `A_timerinterrupt`, for loop variable `i`. -/
def A_timerinterrupt_body (s : Sender) (acc : Stats × List Event) (i : Nat) :
    Except Fault (Stats × List Event) := do
  let seq := cmod (s.A_base + i) SEQSPACE
  let j ← slot seq
  if !s.acked j && decide (cmod (s.A_nextseqnum + SEQSPACE - s.A_base) SEQSPACE > i) then
    pure ({ acc.1 with packets_resent := acc.1.packets_resent + 1 },
      acc.2 ++ [Event.tolayer3 Entity.A (s.buffer j)])
  else
    pure acc

/-- The function `A_timerinterrupt` of `sr.c`. -/
def A_timerinterrupt (s : Sender) (st : Stats) :
    Except Fault (Sender × Stats × List Event) := do
  let (st1, evs) ← (List.range WINDOWSIZE).foldlM (A_timerinterrupt_body s) (st, [])
  pure (s, st1, evs ++ [Event.starttimer Entity.A RTT])

/-- The function `A_init` of `sr.c`; `buffer` is the contents of the array at the
time of the call, which `A_init` does not touch. -/
def A_init (buffer : Fin SEQSPACE → pkt) : Sender :=
  { buffer := buffer, acked := fun _ => false, A_base := 0, A_nextseqnum := 0 }

/-! ## Receiver -/

/-- The receiver variables `B_expected`, `B_buffer`, `B_received`. -/
structure Receiver where
  B_expected : Int
  B_buffer : Fin SEQSPACE → pkt
  B_received : Fin SEQSPACE → Bool

/-- The loop `while (B_received[B_expected]) { tolayer5(...); B_received[B_expected] = false;
B_expected = (B_expected + 1) % SEQSPACE; }` of `B_input`. -/
def B_input_deliver : Nat → Receiver → Except Fault (Receiver × List Event)
  | 0, _ => .error .outOfFuel
  | fuel + 1, r => do
    let e ← slot r.B_expected
    if r.B_received e then
      let ev := Event.tolayer5 Entity.B (r.B_buffer e).payload
      let (r', evs) ← B_input_deliver fuel
        { r with B_received := setSlot r.B_received e false,
                 B_expected := cmod (r.B_expected + 1) SEQSPACE }
      pure (r', ev :: evs)
    else
      pure (r, [])

/-- The function `B_input` of `sr.c`.  The field `ackpkt.checksum` is not yet
initialised when `ComputeChecksum(ackpkt)` is called; it is `0` here.  The
character constant for the digit zero has the value 48. -/
def B_input (fuel : Nat) (r : Receiver) (st : Stats) (packet : pkt) :
    Except Fault (Receiver × Stats × List Event) :=
  if !IsCorrupted packet then do
    let st1 : Stats := { st with packets_received := st.packets_received + 1 }
    let seq := packet.seqnum
    let i ← slot seq
    let r1 : Receiver :=
      if !r.B_received i then
        { r with B_received := setSlot r.B_received i true,
                 B_buffer := setSlot r.B_buffer i packet }
      else r
    let (r2, delivered) ← B_input_deliver fuel r1
    let ackpkt : pkt := { seqnum := 0, acknum := seq, checksum := 0, payload := fun _ => 48 }
    let ackpkt : pkt := { ackpkt with checksum := ComputeChecksum ackpkt }
    pure (r2, st1, delivered ++ [Event.tolayer3 Entity.B ackpkt])
  else
    pure (r, st, [])

/-- The function `B_init` of `sr.c`; `buffer` is the contents of `B_buffer` at the
time of the call, which `B_init` does not touch. -/
def B_init (buffer : Fin SEQSPACE → pkt) : Receiver :=
  { B_expected := 0, B_buffer := buffer, B_received := fun _ => false }

/-! ## Vocabulary of the statements -/

/-- The slot numbered `i` modulo `SEQSPACE`. -/
def modSlot (i : Int) : Fin SEQSPACE :=
  ⟨(i % (SEQSPACE : Int)).toNat, by
    have h1 := Int.emod_nonneg i (show ((SEQSPACE : Nat) : Int) ≠ 0 by decide)
    have h2 := Int.emod_lt_of_pos i (show (0 : Int) < ((SEQSPACE : Nat) : Int) by decide)
    simp only [SEQSPACE] at *; omega⟩

/-- Counts the consecutive set flags at slots `base + i`, `base + i + 1`, ...
(modulo `SEQSPACE`), looking at no more than `n` slots. -/
def runAux (flags : Fin SEQSPACE → Bool) (base : Int) : Nat → Nat → Nat
  | 0, _ => 0
  | n + 1, i => if flags (modSlot (base + i)) then runAux flags base n (i + 1) + 1 else 0

/-- Length of the maximal run of consecutive set flags that starts, cyclically, at
slot `base`; it is at most `SEQSPACE`. -/
def runLength (flags : Fin SEQSPACE → Bool) (base : Int) : Nat :=
  runAux flags base SEQSPACE 0

/-- The flags after the slots `base`, ..., `base + k - 1` (modulo `SEQSPACE`) have
been cleared. -/
def clearRun (flags : Fin SEQSPACE → Bool) (base : Int) (k : Nat) : Fin SEQSPACE → Bool :=
  fun j => if (((j.val : Int) - base) % (SEQSPACE : Int)) < (k : Int) then false else flags j

/-- The test of the `if` in the `for` loop of `A_timerinterrupt`, for loop variable `i`
and `A_base` in range. -/
def resendTest (s : Sender) (i : Nat) : Bool :=
  !s.acked (modSlot (s.A_base + (i : Int))) &&
    decide (cmod (s.A_nextseqnum + SEQSPACE - s.A_base) SEQSPACE > (i : Int))

/-- The packets passed to `tolayer3` by side `e`, in call order. -/
def sentBy (e : Entity) : List Event → List pkt
  | [] => []
  | Event.tolayer3 e' p :: evs => if e' = e then p :: sentBy e evs else sentBy e evs
  | _ :: evs => sentBy e evs

/-- The payloads passed to `tolayer5`, in call order. -/
def deliveredIn : List Event → List (Fin 20 → Byte)
  | [] => []
  | Event.tolayer5 _ d :: evs => d :: deliveredIn evs
  | _ :: evs => deliveredIn evs

/-! ## Runs of the sender alone -/

/-- What the emulator can present to the sender. -/
inductive SenderEvent where
  | output (message : msg)
  | input (packet : pkt)
  | timerinterrupt

/-- The sender with the statistics and two history counters: the number of messages
`A_output` has accepted and the number of times `A_input` has advanced `A_base`. -/
structure SenderRun where
  sender : Sender
  stats : Stats
  accepted : Nat
  advanced : Nat

/-- One sender callback, with the history counters kept up to date.  `A_output` has
accepted its message exactly when it made emulator calls. -/
def senderStep (fuel : Nat) (g : SenderRun) : SenderEvent → Except Fault SenderRun
  | SenderEvent.output message => do
    let (s, st, evs) ← A_output g.sender g.stats message
    pure { g with sender := s, stats := st,
                  accepted := g.accepted + (if evs.isEmpty then 0 else 1) }
  | SenderEvent.input packet => do
    let (s, st, _, k) ← A_input fuel g.sender g.stats packet
    pure { g with sender := s, stats := st, advanced := g.advanced + k }
  | SenderEvent.timerinterrupt => do
    let (s, st, _) ← A_timerinterrupt g.sender g.stats
    pure { g with sender := s, stats := st }

/-- A sequence of sender callbacks. -/
def senderRun (fuel : Nat) (g : SenderRun) (evs : List SenderEvent) : Except Fault SenderRun :=
  evs.foldlM (senderStep fuel) g

/-- The sender right after `A_init`. -/
def senderInit (buf : Fin SEQSPACE → pkt) (st : Stats) : SenderRun :=
  { sender := A_init buf, stats := st, accepted := 0, advanced := 0 }

/-- The packet is corrupted, or its `acknum` is in `[0, SEQSPACE)`. -/
def ackInRange (p : pkt) : Bool :=
  IsCorrupted p || (decide (0 ≤ p.acknum) && decide (p.acknum < (SEQSPACE : Int)))

/-- Every packet given to `A_input` in the run is corrupted or has its `acknum` in
`[0, SEQSPACE)`. -/
def acksInRange : List SenderEvent → Bool
  | [] => true
  | SenderEvent.input p :: evs => ackInRange p && acksInRange evs
  | _ :: evs => acksInRange evs

/-- The packet is corrupted, or its `acknum` is the sequence number of an outstanding
packet: one of `A_base`, ..., `A_nextseqnum - 1` (modulo `SEQSPACE`). -/
def ackOutstanding (s : Sender) (p : pkt) : Bool :=
  IsCorrupted p ||
    (decide (0 ≤ p.acknum) && decide (p.acknum < (SEQSPACE : Int)) &&
     decide ((p.acknum - s.A_base) % (SEQSPACE : Int)
        < (s.A_nextseqnum - s.A_base) % (SEQSPACE : Int)))

/-- Every packet given to `A_input` in the run is corrupted or acknowledges a packet
that is outstanding at that moment.  Nothing is required of the events that follow a
call that does not return. -/
def acksOutstanding (fuel : Nat) : SenderRun → List SenderEvent → Bool
  | _, [] => true
  | g, ev :: evs =>
    (match ev with
     | SenderEvent.input p => ackOutstanding g.sender p
     | _ => true) &&
    (match senderStep fuel g ev with
     | .ok g' => acksOutstanding fuel g' evs
     | .error _ => true)

/-- What holds of the sender between callbacks as long as every acknowledgment it
receives is for an outstanding packet: indices in range, the history counters agree
with the window, and every flag outside the window is clear. -/
structure SenderInv (g : SenderRun) : Prop where
  base0 : 0 ≤ g.sender.A_base
  base1 : g.sender.A_base < (SEQSPACE : Int)
  next0 : 0 ≤ g.sender.A_nextseqnum
  next1 : g.sender.A_nextseqnum < (SEQSPACE : Int)
  count : (g.accepted : Int)
    = (g.advanced : Int) + (g.sender.A_nextseqnum - g.sender.A_base) % (SEQSPACE : Int)
  le : (g.sender.A_nextseqnum - g.sender.A_base) % (SEQSPACE : Int) ≤ (WINDOWSIZE : Int)
  clear : ∀ j : Fin SEQSPACE,
    (g.sender.A_nextseqnum - g.sender.A_base) % (SEQSPACE : Int)
      ≤ ((j.val : Int) - g.sender.A_base) % (SEQSPACE : Int) → g.sender.acked j = false

/-! ## Sender, receiver and a lossless network -/

/-- What the emulator can do next: layer 5 offers a message to `A_output`, the oldest
data packet in flight reaches `B_input`, the oldest acknowledgment in flight reaches
`A_input`, or the timer of `A` goes off. -/
inductive NetEvent where
  | output (message : msg)
  | toB
  | toA
  | timerinterrupt

/-- Sender, receiver and a network that loses and corrupts nothing and keeps the order:
the packets in flight in each direction (oldest first), and the history of payloads
accepted by `A_output` and handed to layer 5 at `B`. -/
structure Net where
  sender : Sender
  receiver : Receiver
  stats : Stats
  dataInFlight : List pkt
  ackInFlight : List pkt
  accepted : List (Fin 20 → Byte)
  delivered : List (Fin 20 → Byte)

/-- One emulator event on the lossless, order-preserving network. -/
def netStep (fuel : Nat) (net : Net) : NetEvent → Except Fault Net
  | NetEvent.output message => do
    let (s, st, evs) ← A_output net.sender net.stats message
    pure { net with sender := s, stats := st,
                    dataInFlight := net.dataInFlight ++ sentBy Entity.A evs,
                    accepted := net.accepted ++ (if evs.isEmpty then [] else [message.data]) }
  | NetEvent.toB =>
    match net.dataInFlight with
    | [] => pure net
    | p :: rest => do
      let (r, st, evs) ← B_input fuel net.receiver net.stats p
      pure { net with receiver := r, stats := st, dataInFlight := rest,
                      ackInFlight := net.ackInFlight ++ sentBy Entity.B evs,
                      delivered := net.delivered ++ deliveredIn evs }
  | NetEvent.toA =>
    match net.ackInFlight with
    | [] => pure net
    | p :: rest => do
      let (s, st, _, _) ← A_input fuel net.sender net.stats p
      pure { net with sender := s, stats := st, ackInFlight := rest }
  | NetEvent.timerinterrupt => do
    let (s, st, evs) ← A_timerinterrupt net.sender net.stats
    pure { net with sender := s, stats := st,
                    dataInFlight := net.dataInFlight ++ sentBy Entity.A evs }

/-- A sequence of emulator events. -/
def netRun (fuel : Nat) (net : Net) (evs : List NetEvent) : Except Fault Net :=
  evs.foldlM (netStep fuel) net

/-- The state after `A_init` and `B_init`, nothing in flight. -/
def netInit (bufA bufB : Fin SEQSPACE → pkt) (st : Stats) : Net :=
  { sender := A_init bufA, receiver := B_init bufB, stats := st,
    dataInFlight := [], ackInFlight := [], accepted := [], delivered := [] }

/-! ## Concrete inputs -/

/-- The message whose 20 bytes all have the value `c`. -/
def constMsg (c : Byte) : msg := { data := fun _ => c }

/-- An all-zero packet, used to fill arrays the code has not written yet. -/
def zeroPkt : pkt := { seqnum := 0, acknum := 0, checksum := 0, payload := fun _ => 0 }

/-- All statistics counters at zero. -/
def zeroStats : Stats :=
  { window_full := 0, packets_resent := 0, total_ACKs_received := 0, new_ACKs := 0,
    packets_received := 0 }

/-- The data packet `A_output` builds for sequence number `seq` and message `m`. -/
def dataFor (seq : Int) (m : msg) : pkt :=
  { seqnum := seq, acknum := NOTINUSE,
    checksum := ComputeChecksum ⟨seq, NOTINUSE, 0, fun i => m.data i⟩,
    payload := fun i => m.data i }

/-- The acknowledgment packet `B_input` builds for sequence number `a`. -/
def ackFor (a : Int) : pkt :=
  { seqnum := 0, acknum := a, checksum := ComputeChecksum ⟨0, a, 0, fun _ => 48⟩,
    payload := fun _ => 48 }

/-- A sender with base 0 and the packets 0, 1, 2 outstanding, none acknowledged. -/
def threeOutstanding : Sender :=
  { buffer := fun j => dataFor j.val (constMsg (Fin.ofNat (10 + j.val))), acked := fun _ => false,
    A_base := 0, A_nextseqnum := 3 }

/-- A sender with base 0 and a full window: the packets 0, ..., 5 outstanding. -/
def fullWindow : Sender :=
  { buffer := fun j => dataFor j.val (constMsg (Fin.ofNat (10 + j.val))), acked := fun _ => false,
    A_base := 0, A_nextseqnum := 6 }

/-- A run of the whole system: one message is sent and reaches `B`, the timer goes off
before the acknowledgment reaches `A`, the retransmitted copy reaches `B`, both
acknowledgments reach `A`, then six more messages are sent and reach `B`. -/
def duplicateRun : List NetEvent :=
  [NetEvent.output (constMsg 10), NetEvent.toB, NetEvent.timerinterrupt, NetEvent.toB,
   NetEvent.toA, NetEvent.toA,
   NetEvent.output (constMsg 11), NetEvent.output (constMsg 12), NetEvent.output (constMsg 13),
   NetEvent.output (constMsg 14), NetEvent.output (constMsg 15), NetEvent.output (constMsg 16),
   NetEvent.toB, NetEvent.toB, NetEvent.toB, NetEvent.toB, NetEvent.toB, NetEvent.toB]

/-- The run `duplicateRun` followed by the arrival at `A` of the six acknowledgments
that are then in flight. -/
def duplicateRunAcked : List NetEvent :=
  duplicateRun ++ [NetEvent.toA, NetEvent.toA, NetEvent.toA, NetEvent.toA, NetEvent.toA,
    NetEvent.toA]

/-- A run of the sender in which the acknowledgment of packet 0 arrives twice: the calls
of `A_output` and `A_input` that the sender gets in `duplicateRunAcked`. -/
def duplicateAckRun : List SenderEvent :=
  [SenderEvent.output (constMsg 10), SenderEvent.input (ackFor 0), SenderEvent.input (ackFor 0),
   SenderEvent.output (constMsg 11), SenderEvent.output (constMsg 12),
   SenderEvent.output (constMsg 13), SenderEvent.output (constMsg 14),
   SenderEvent.output (constMsg 15), SenderEvent.output (constMsg 16),
   SenderEvent.input (ackFor 1), SenderEvent.input (ackFor 2), SenderEvent.input (ackFor 3),
   SenderEvent.input (ackFor 4), SenderEvent.input (ackFor 5), SenderEvent.input (ackFor 6)]

/-- A run of the sender in which every acknowledgment is for an outstanding packet
(one of them arrives twice while its packet is still outstanding, one packet is
corrupted). -/
def outstandingAckRun : List SenderEvent :=
  [SenderEvent.output (constMsg 10), SenderEvent.output (constMsg 11),
   SenderEvent.timerinterrupt, SenderEvent.input (ackFor 1), SenderEvent.input (ackFor 1),
   SenderEvent.input (ackFor 0), SenderEvent.input { zeroPkt with checksum := 5 }]

/-! ## Vocabulary and concrete inputs of the claims on the checksum, on runs and on the loops -/

/-- The checksum as the specification words it: `seqnum + acknum +` the sum of the
integer values of the 20 payload bytes, as a sum of integers. -/
def checksumSpec (p : pkt) : Int :=
  p.seqnum + p.acknum + ∑ i : Fin 20, charValue (p.payload i)

/-- The packet with payload byte `i` replaced by `b`. -/
def setByte (p : pkt) (i : Fin 20) (b : Byte) : pkt :=
  { p with payload := fun j => if j = i then b else p.payload j }

/-- The packet with the payload bytes `i` and `j` exchanged. -/
def swapBytes (p : pkt) (i j : Fin 20) : pkt :=
  { p with payload := fun k => if k = i then p.payload j else if k = j then p.payload i
                                else p.payload k }

/-- The corruption test as the specification words it: the stored checksum differs
from the checksum of the specification (`checksumSpec`). -/
def isCorruptedSpec (p : pkt) : Bool :=
  decide (p.checksum ≠ checksumSpec p)

/-- A packet whose exact sum `seqnum + acknum + ...` is 2^31, one more than the largest
`int`; its field `checksum` holds the value the 32-bit additions give. -/
def overflowPkt : pkt :=
  { seqnum := 2147483647, acknum := 1, checksum := -2147483648, payload := fun _ => 0 }

/-- A packet that fails the checksum test and whose `acknum` is far outside
`[0, SEQSPACE)`. -/
def corruptedAck : pkt := { seqnum := 0, acknum := 99, checksum := 0, payload := fun _ => 48 }

/-- An uncorrupted data packet whose payload bytes are 0, 1, ..., 19. -/
def countingPkt : pkt :=
  { seqnum := 3, acknum := NOTINUSE, checksum := 192, payload := fun i => Fin.ofNat i.val }

/-- The packet is corrupted, or its `seqnum` is in `[0, SEQSPACE)`. -/
def seqInRange (p : pkt) : Bool :=
  IsCorrupted p || (decide (0 ≤ p.seqnum) && decide (p.seqnum < (SEQSPACE : Int)))

/-- One sender callback; next to the sender state and the statistics, the packets
`A_output` has built and passed to `tolayer3` so far. -/
def senderLogStep (fuel : Nat) (x : Sender × Stats × List pkt) :
    SenderEvent → Except Fault (Sender × Stats × List pkt)
  | SenderEvent.output message => do
    let (s, st, evs) ← A_output x.1 x.2.1 message
    pure (s, st, x.2.2 ++ sentBy Entity.A evs)
  | SenderEvent.input packet => do
    let (s, st, _, _) ← A_input fuel x.1 x.2.1 packet
    pure (s, st, x.2.2)
  | SenderEvent.timerinterrupt => do
    let (s, st, _) ← A_timerinterrupt x.1 x.2.1
    pure (s, st, x.2.2)

/-- A sequence of sender callbacks from `A_init`, with the packets built by `A_output`. -/
def senderLog (fuel : Nat) (buf : Fin SEQSPACE → pkt) (st : Stats) (evs : List SenderEvent) :
    Except Fault (Sender × Stats × List pkt) :=
  evs.foldlM (senderLogStep fuel) (A_init buf, st, [])

/-- A sequence of `B_input` calls. -/
def receiverRun (fuel : Nat) (x : Receiver × Stats) (pkts : List pkt) :
    Except Fault (Receiver × Stats) :=
  pkts.foldlM (fun x p => do
    let (r, st, _) ← B_input fuel x.1 x.2 p
    pure (r, st)) x

/-- The number of set flags in an array of `SEQSPACE` flags. -/
def countSet (flags : Fin SEQSPACE → Bool) : Nat :=
  ∑ j : Fin SEQSPACE, if flags j then 1 else 0

/-- A sender with all `SEQSPACE` flags set and base 3. -/
def allAcked : Sender :=
  { buffer := fun _ => zeroPkt, acked := fun _ => true, A_base := 3, A_nextseqnum := 3 }

/-- A receiver with all `SEQSPACE` received-flags set and `B_expected` 3. -/
def allReceived : Receiver :=
  { B_expected := 3, B_buffer := fun j => dataFor j.val (constMsg (Fin.ofNat (10 + j.val))),
    B_received := fun _ => true }

/-- The messages of the list are offered to `A_output` one after the other, nothing
else happening in between; next to the final state, the emulator calls of each
`A_output` call. -/
def offerAll (s : Sender) (st : Stats) : List msg → Except Fault (Sender × Stats × List (List Event))
  | [] => pure (s, st, [])
  | m :: ms => do
    let (s1, st1, evs) ← A_output s st m
    let (s2, st2, calls) ← offerAll s1 st1 ms
    pure (s2, st2, evs :: calls)

/-- What the `j`-th `A_output` call after `A_init` does when no acknowledgment is
processed in between, according to the scenario: the first `WINDOWSIZE` calls transmit
the packet with sequence number `j` and start the timer, the later ones make no call. -/
def expectedCalls (j : Nat) (m : msg) : List Event :=
  if j < WINDOWSIZE then
    [Event.tolayer3 Entity.A (dataFor (j : Int) m), Event.starttimer Entity.A RTT]
  else []

/-- Rounds of one `A_output` call followed by one `A_input` call: each element of the
list is the message offered and the packet then given to `A_input`.  The result
collects the emulator calls of all the calls, in order. -/
def sendAndAck (fuel : Nat) (s : Sender) (st : Stats) :
    List (msg × pkt) → Except Fault (Sender × Stats × List Event)
  | [] => pure (s, st, [])
  | (m, a) :: rounds => do
    let (s1, st1, evs1) ← A_output s st m
    let (s2, st2, evs2, _) ← A_input fuel s1 st1 a
    let (s3, st3, evs3) ← sendAndAck fuel s2 st2 rounds
    pure (s3, st3, evs1 ++ evs2 ++ evs3)

/-- A sender with `A_base = A_nextseqnum = 3` and no flag set. -/
def emptyAtThree : Sender :=
  { buffer := fun _ => zeroPkt, acked := fun _ => false, A_base := 3, A_nextseqnum := 3 }

/-- Seven rounds for a sender with `A_base = A_nextseqnum = 3`: the messages 10, ..., 16,
each followed by the acknowledgment of the sequence number it gets (3, 4, 5, 6, 0, 1, 2). -/
def wrapRounds : List (msg × pkt) :=
  [(constMsg 10, ackFor 3), (constMsg 11, ackFor 4), (constMsg 12, ackFor 5),
   (constMsg 13, ackFor 6), (constMsg 14, ackFor 0), (constMsg 15, ackFor 1),
   (constMsg 16, ackFor 2)]

/-- Arrivals at the receiver: packet 2, a packet that fails the checksum test and has
`seqnum` 99, packet 0, packet 1. -/
def mixedArrivals : List pkt :=
  [dataFor 2 (constMsg 12), { seqnum := 99, acknum := 0, checksum := 0, payload := fun _ => 0 },
   dataFor 0 (constMsg 10), dataFor 1 (constMsg 11)]

/-! ## Auxiliary lemmas -/

theorem ok_bind {ε α β : Type} (a : α) (f : α → Except ε β) :
    (Except.ok a >>= f) = f a := rfl

theorem error_bind {ε α β : Type} (e : ε) (f : α → Except ε β) :
    (Except.error e >>= f) = Except.error e := rfl

theorem pure_eq_ok {ε α : Type} (a : α) : (pure a : Except ε α) = Except.ok a := rfl

theorem seq_cast : ((SEQSPACE : Nat) : Int) = 7 := rfl

theorem win_cast : ((WINDOWSIZE : Nat) : Int) = 6 := rfl

theorem cmod_of_nonneg (a : Int) (h : 0 ≤ a) : cmod a SEQSPACE = a % SEQSPACE := by
  simp only [cmod]; exact Int.tmod_eq_emod h (by decide)

theorem slot_of_range (i : Int) (h0 : 0 ≤ i) (h1 : i < SEQSPACE) : slot i = .ok (modSlot i) := by
  unfold slot modSlot
  rw [dif_pos ⟨h0, h1⟩]
  congr 2
  simp only [SEQSPACE] at *
  omega

theorem modSlot_val (i : Int) : ((modSlot i).val : Int) = i % SEQSPACE := by
  unfold modSlot
  have h1 := Int.emod_nonneg i (show ((SEQSPACE : Nat) : Int) ≠ 0 by decide)
  simp only [SEQSPACE] at *
  omega

theorem modSlot_congr (a b : Int) (h : a % SEQSPACE = b % SEQSPACE) : modSlot a = modSlot b := by
  unfold modSlot
  simp only [h]

theorem modSlot_eq_iff (a b : Int) : modSlot a = modSlot b ↔ a % SEQSPACE = b % SEQSPACE := by
  constructor
  · intro h
    have := congrArg (fun x : Fin SEQSPACE => (x.val : Int)) h
    simpa [modSlot_val] using this
  · exact modSlot_congr a b

theorem setSlot_same {α : Type} (arr : Fin SEQSPACE → α) (i : Fin SEQSPACE) (v : α) :
    setSlot arr i v i = v := by
  simp [setSlot]

theorem setSlot_other {α : Type} (arr : Fin SEQSPACE → α) (i j : Fin SEQSPACE) (v : α)
    (h : j ≠ i) : setSlot arr i v j = arr j := by
  simp [setSlot, h]

theorem setSlot_id {α : Type} (arr : Fin SEQSPACE → α) (i : Fin SEQSPACE) (v : α)
    (h : arr i = v) : setSlot arr i v = arr := by
  funext j
  unfold setSlot
  split
  · rename_i hj; rw [hj, h]
  · rfl

theorem runAux_le (flags : Fin SEQSPACE → Bool) (base : Int) (n i : Nat) :
    runAux flags base n i ≤ n := by
  induction n generalizing i with
  | zero => simp [runAux]
  | succ n ih =>
    simp only [runAux]
    split
    · have := ih (i + 1); omega
    · omega

theorem runAux_set (flags : Fin SEQSPACE → Bool) (base : Int) (n i j : Nat)
    (hj : j < runAux flags base n i) : flags (modSlot (base + ((i + j : Nat) : Int))) = true := by
  induction n generalizing i j with
  | zero => simp [runAux] at hj
  | succ n ih =>
    simp only [runAux] at hj
    split at hj
    · rename_i hset
      cases j with
      | zero => simpa using hset
      | succ j =>
        have := ih (i + 1) j (by omega)
        have e : i + 1 + j = i + (j + 1) := by omega
        rw [e] at this
        exact this
    · omega

theorem runAux_stop (flags : Fin SEQSPACE → Bool) (base : Int) (n i : Nat)
    (h : runAux flags base n i < n) :
    flags (modSlot (base + ((i + runAux flags base n i : Nat) : Int))) = false := by
  induction n generalizing i with
  | zero => omega
  | succ n ih =>
    simp only [runAux] at h ⊢
    split
    · rename_i hset
      rw [if_pos hset] at h
      have := ih (i + 1) (by omega)
      have e : i + 1 + runAux flags base n (i + 1) = i + (runAux flags base n (i + 1) + 1) := by omega
      rw [e] at this
      exact this
    · rename_i hset
      simpa using hset

theorem runLength_le (flags : Fin SEQSPACE → Bool) (base : Int) :
    runLength flags base ≤ SEQSPACE := runAux_le flags base SEQSPACE 0

theorem runLength_set (flags : Fin SEQSPACE → Bool) (base : Int) (j : Nat)
    (hj : j < runLength flags base) : flags (modSlot (base + (j : Int))) = true := by
  have := runAux_set flags base SEQSPACE 0 j hj
  simpa using this

theorem runLength_stop (flags : Fin SEQSPACE → Bool) (base : Int)
    (h : runLength flags base < SEQSPACE) :
    flags (modSlot (base + (runLength flags base : Int))) = false := by
  have := runAux_stop flags base SEQSPACE 0 h
  simpa [runLength] using this

theorem clearRun_zero (flags : Fin SEQSPACE → Bool) (base : Int) :
    clearRun flags base 0 = flags := by
  funext j
  unfold clearRun
  have := Int.emod_nonneg ((j.val : Int) - base) (show ((SEQSPACE : Nat) : Int) ≠ 0 by decide)
  rw [if_neg (by simp only [Nat.cast_zero]; omega)]

theorem run_step_set (flags : Fin SEQSPACE → Bool) (base : Int) (k : Nat) (hk : k + 1 ≤ SEQSPACE)
    (hset : ∀ i : Nat, i < k + 1 → flags (modSlot (base + (i : Int))) = true) :
    ∀ i : Nat, i < k →
      setSlot flags (modSlot base) false (modSlot ((base + 1) % (SEQSPACE : Int) + (i : Int))) = true := by
  intro i hi
  have hne : modSlot ((base + 1) % (SEQSPACE : Int) + (i : Int)) ≠ modSlot base := by
    rw [Ne, modSlot_eq_iff]
    simp only [SEQSPACE, Nat.cast_ofNat] at *; omega
  have e : modSlot ((base + 1) % (SEQSPACE : Int) + (i : Int))
      = modSlot (base + ((i + 1 : Nat) : Int)) := by
    apply modSlot_congr
    simp only [SEQSPACE, Nat.cast_ofNat] at *; push_cast; omega
  unfold setSlot
  rw [if_neg hne, e]
  exact hset (i + 1) (by omega)

theorem run_step_stop (flags : Fin SEQSPACE → Bool) (base : Int) (k : Nat)
    (hstop : k + 1 < SEQSPACE → flags (modSlot (base + ((k + 1 : Nat) : Int))) = false) :
    k < SEQSPACE →
      setSlot flags (modSlot base) false (modSlot ((base + 1) % (SEQSPACE : Int) + (k : Int))) = false := by
  intro _
  unfold setSlot
  by_cases hc : modSlot ((base + 1) % (SEQSPACE : Int) + (k : Int)) = modSlot base
  · rw [if_pos hc]
  · rw [if_neg hc]
    have hlt : k + 1 < SEQSPACE := by
      by_contra hcon
      apply hc
      apply modSlot_congr
      simp only [SEQSPACE, Nat.cast_ofNat] at *; omega
    have e : modSlot ((base + 1) % (SEQSPACE : Int) + (k : Int))
        = modSlot (base + ((k + 1 : Nat) : Int)) := by
      apply modSlot_congr
      simp only [SEQSPACE, Nat.cast_ofNat] at *; push_cast; omega
    rw [e]
    exact hstop hlt

theorem clearRun_step (flags : Fin SEQSPACE → Bool) (base : Int) (k : Nat) :
    clearRun (setSlot flags (modSlot base) false) ((base + 1) % (SEQSPACE : Int)) k
      = clearRun flags base (k + 1) := by
  funext j
  unfold clearRun setSlot
  have hj := modSlot_val base
  have hjlt := j.isLt
  by_cases hjb : j = modSlot base
  · rw [if_pos hjb, ite_self, if_pos]
    rw [hjb, hj]
    simp only [SEQSPACE, Nat.cast_ofNat] at *
    push_cast
    omega
  · have hjv : (j.val : Int) ≠ base % 7 := by
      intro h; apply hjb; apply Fin.ext
      simp only [SEQSPACE, Nat.cast_ofNat] at *; omega
    rw [if_neg hjb]
    simp only [SEQSPACE, Nat.cast_ofNat] at *
    by_cases hc : ((j.val : Int) - (base + 1) % 7) % 7 < (k : Int)
    · rw [if_pos hc, if_pos (by push_cast; omega)]
    · rw [if_neg hc, if_neg (by push_cast; omega)]

theorem base_step (base : Int) (k : Nat) :
    ((base + 1) % (SEQSPACE : Int) + (k : Int)) % (SEQSPACE : Int)
      = (base + ((k + 1 : Nat) : Int)) % (SEQSPACE : Int) := by
  simp only [SEQSPACE, Nat.cast_ofNat]; push_cast; omega

theorem clearRun_in (flags : Fin SEQSPACE → Bool) (base : Int) (k i : Nat)
    (hi : i < k) (hk : k ≤ SEQSPACE) : clearRun flags base k (modSlot (base + (i : Int))) = false := by
  unfold clearRun
  rw [if_pos]
  rw [modSlot_val]
  simp only [SEQSPACE, Nat.cast_ofNat] at *
  omega

theorem clearRun_out (flags : Fin SEQSPACE → Bool) (base : Int) (k : Nat) (j : Fin SEQSPACE)
    (hj : ∀ i : Nat, i < k → j ≠ modSlot (base + (i : Int))) : clearRun flags base k j = flags j := by
  unfold clearRun
  rw [if_neg]
  intro hlt
  have h0 := Int.emod_nonneg ((j.val : Int) - base) (show ((SEQSPACE : Nat) : Int) ≠ 0 by decide)
  apply hj (((j.val : Int) - base) % (SEQSPACE : Int)).toNat (by omega)
  apply Fin.ext
  have hv := modSlot_val (base + ((((j.val : Int) - base) % (SEQSPACE : Int)).toNat : Int))
  have hjlt := j.isLt
  simp only [SEQSPACE, Nat.cast_ofNat] at *
  omega

theorem clearRun_stop (flags : Fin SEQSPACE → Bool) (base : Int) (k : Nat) (hk : k ≤ SEQSPACE)
    (hstop : k < SEQSPACE → flags (modSlot (base + (k : Int))) = false) :
    clearRun flags base k (modSlot ((base + (k : Int)) % (SEQSPACE : Int))) = false := by
  have e : modSlot ((base + (k : Int)) % (SEQSPACE : Int)) = modSlot (base + (k : Int)) :=
    modSlot_congr _ _ (by simp only [SEQSPACE, Nat.cast_ofNat]; omega)
  rw [e]
  by_cases h7 : k < SEQSPACE
  · unfold clearRun
    rw [hstop h7]
    simp
  · unfold clearRun
    rw [if_pos]
    rw [modSlot_val]
    simp only [SEQSPACE, Nat.cast_ofNat] at *
    omega

theorem ComputeChecksum_checksum (p : pkt) (c : Int) :
    ComputeChecksum { p with checksum := c } = ComputeChecksum p := rfl

theorem IsCorrupted_eq_false (p : pkt) :
    IsCorrupted p = false ↔ p.checksum = ComputeChecksum p := by
  unfold IsCorrupted
  split <;> simp_all

theorem A_output_accept_eq (s : Sender) (st : Stats) (message : msg)
    (hb0 : 0 ≤ s.A_base) (hb1 : s.A_base < SEQSPACE)
    (hn0 : 0 ≤ s.A_nextseqnum) (hn1 : s.A_nextseqnum < SEQSPACE)
    (hw : (s.A_nextseqnum + SEQSPACE - s.A_base) % SEQSPACE < WINDOWSIZE) :
    A_output s st message
      = .ok ({ buffer := setSlot s.buffer (modSlot s.A_nextseqnum)
                 { seqnum := s.A_nextseqnum, acknum := NOTINUSE,
                   checksum := ComputeChecksum
                     ⟨s.A_nextseqnum, NOTINUSE, 0, fun i => message.data i⟩,
                   payload := fun i => message.data i },
               acked := setSlot s.acked (modSlot s.A_nextseqnum) false,
               A_base := s.A_base,
               A_nextseqnum := (s.A_nextseqnum + 1) % SEQSPACE },
             st,
             [Event.tolayer3 Entity.A
                { seqnum := s.A_nextseqnum, acknum := NOTINUSE,
                  checksum := ComputeChecksum
                    ⟨s.A_nextseqnum, NOTINUSE, 0, fun i => message.data i⟩,
                  payload := fun i => message.data i },
              Event.starttimer Entity.A RTT]) := by
  have hc : cmod (s.A_nextseqnum + SEQSPACE - s.A_base) SEQSPACE
      = (s.A_nextseqnum + SEQSPACE - s.A_base) % SEQSPACE :=
    cmod_of_nonneg _ (by simp only [seq_cast] at *; omega)
  have hnx : cmod (s.A_nextseqnum + 1) SEQSPACE = (s.A_nextseqnum + 1) % SEQSPACE :=
    cmod_of_nonneg _ (by omega)
  unfold A_output
  rw [hc, if_pos hw, slot_of_range _ hn0 hn1]
  simp only [ok_bind, pure_eq_ok, hnx]

theorem A_output_reject_eq (s : Sender) (st : Stats) (message : msg)
    (hw : (WINDOWSIZE : Int) ≤ cmod (s.A_nextseqnum + SEQSPACE - s.A_base) SEQSPACE) :
    A_output s st message
      = .ok (s, { st with window_full := st.window_full + 1 }, []) := by
  unfold A_output
  rw [if_neg (by omega)]
  rfl

theorem A_input_slide_run (k : Nat) : ∀ (fuel : Nat) (s : Sender),
    0 ≤ s.A_base → s.A_base < SEQSPACE → k ≤ SEQSPACE →
    (∀ i : Nat, i < k → s.acked (modSlot (s.A_base + (i : Int))) = true) →
    (k < SEQSPACE → s.acked (modSlot (s.A_base + (k : Int))) = false) →
    k < fuel →
    A_input_slide fuel s =
      .ok ({ s with acked := clearRun s.acked s.A_base k,
                    A_base := (s.A_base + (k : Int)) % (SEQSPACE : Int) }, k) := by
  induction k with
  | zero =>
    intro fuel s h0 h1 _ _ hstop hfuel
    obtain ⟨f, rfl⟩ : ∃ f, fuel = f + 1 := ⟨fuel - 1, by omega⟩
    have hs := hstop (by decide)
    simp only [Nat.cast_zero, add_zero] at hs
    simp only [A_input_slide, slot_of_range _ h0 h1, ok_bind]
    rw [if_neg (by simp [hs]), clearRun_zero]
    have e2 : (s.A_base + ((0 : Nat) : Int)) % (SEQSPACE : Int) = s.A_base := by
      simp only [SEQSPACE, Nat.cast_ofNat] at *; omega
    rw [e2]
    rfl
  | succ k ih =>
    intro fuel s h0 h1 hk hset hstop hfuel
    obtain ⟨f, rfl⟩ : ∃ f, fuel = f + 1 := ⟨fuel - 1, by omega⟩
    have hb := hset 0 (by omega)
    simp only [Nat.cast_zero, add_zero] at hb
    have hnext : cmod (s.A_base + 1) SEQSPACE = (s.A_base + 1) % (SEQSPACE : Int) :=
      cmod_of_nonneg _ (by omega)
    have hn0 : 0 ≤ (s.A_base + 1) % (SEQSPACE : Int) := by
      simp only [SEQSPACE, Nat.cast_ofNat] at *; omega
    have hn1 : (s.A_base + 1) % (SEQSPACE : Int) < SEQSPACE := by
      simp only [SEQSPACE, Nat.cast_ofNat] at *; omega
    have key := ih f
      { s with acked := setSlot s.acked (modSlot s.A_base) false,
               A_base := (s.A_base + 1) % (SEQSPACE : Int) } hn0 hn1 (by omega)
      (run_step_set s.acked s.A_base k hk hset) (run_step_stop s.acked s.A_base k hstop)
      (by omega)
    simp only [A_input_slide, slot_of_range _ h0 h1, ok_bind]
    rw [if_pos hb, hnext, key]
    simp only [ok_bind, pure_eq_ok, clearRun_step, base_step]

theorem A_input_eq (fuel : Nat) (s : Sender) (st : Stats) (packet : pkt)
    (hfuel : SEQSPACE < fuel) (hb0 : 0 ≤ s.A_base) (hb1 : s.A_base < SEQSPACE)
    (hc : IsCorrupted packet = false)
    (ha0 : 0 ≤ packet.acknum) (ha1 : packet.acknum < SEQSPACE) :
    A_input fuel s st packet
      = .ok ({ s with
                acked := clearRun (setSlot s.acked (modSlot packet.acknum) true) s.A_base
                  (runLength (setSlot s.acked (modSlot packet.acknum) true) s.A_base),
                A_base := (s.A_base + (runLength (setSlot s.acked (modSlot packet.acknum) true)
                  s.A_base : Int)) % (SEQSPACE : Int) },
            (if s.acked (modSlot packet.acknum) then st
             else { st with total_ACKs_received := st.total_ACKs_received + 1,
                            new_ACKs := st.new_ACKs + 1 }),
            [], runLength (setSlot s.acked (modSlot packet.acknum) true) s.A_base) := by
  have hrun := A_input_slide_run (runLength (setSlot s.acked (modSlot packet.acknum) true) s.A_base)
    fuel { s with acked := setSlot s.acked (modSlot packet.acknum) true } hb0 hb1
    (runLength_le _ _) (runLength_set _ _) (runLength_stop _ _)
    (lt_of_le_of_lt (runLength_le _ _) hfuel)
  unfold A_input
  rw [hc]
  simp only [Bool.not_false, if_true, slot_of_range _ ha0 ha1, ok_bind]
  cases hacked : s.acked (modSlot packet.acknum)
  · simp only [Bool.not_false, if_true, Bool.false_eq_true, if_false]
    rw [hrun]
    rfl
  · simp only [Bool.not_true, Bool.false_eq_true, if_false, if_true]
    rw [setSlot_id _ _ _ hacked] at hrun ⊢
    rw [hrun]
    rfl

theorem A_input_corrupted_eq (fuel : Nat) (s : Sender) (st : Stats) (packet : pkt)
    (hc : IsCorrupted packet = true) :
    A_input fuel s st packet = .ok (s, st, [], 0) := by
  unfold A_input
  rw [hc]
  rfl

theorem A_timerinterrupt_body_eq (s : Sender) (h0 : 0 ≤ s.A_base) (acc : Stats × List Event)
    (i : Nat) :
    A_timerinterrupt_body s acc i =
      .ok (if resendTest s i then
            ({ acc.1 with packets_resent := acc.1.packets_resent + 1 },
              acc.2 ++ [Event.tolayer3 Entity.A (s.buffer (modSlot (s.A_base + (i : Int))))])
          else acc) := by
  have hc : cmod (s.A_base + (i : Int)) SEQSPACE = (s.A_base + (i : Int)) % (SEQSPACE : Int) :=
    cmod_of_nonneg _ (by omega)
  have hs : slot ((s.A_base + (i : Int)) % (SEQSPACE : Int))
      = .ok (modSlot (s.A_base + (i : Int))) := by
    rw [slot_of_range _ (by simp only [SEQSPACE, Nat.cast_ofNat]; omega)
      (by simp only [SEQSPACE, Nat.cast_ofNat]; omega)]
    congr 1
    exact modSlot_congr _ _ (by simp only [SEQSPACE, Nat.cast_ofNat]; omega)
  unfold A_timerinterrupt_body resendTest
  simp only [hc, hs, ok_bind, pure_eq_ok]
  split <;> rfl

theorem A_timerinterrupt_fold (s : Sender) (h0 : 0 ≤ s.A_base)
    (l : List Nat) : ∀ (st : Stats) (evs : List Event),
    l.foldlM (A_timerinterrupt_body s) (st, evs) =
      .ok ({ st with packets_resent := st.packets_resent +
              (((l.filter (resendTest s)).length : Nat) : Int) },
           evs ++ (l.filter (resendTest s)).map
                (fun (i : Nat) =>
                  Event.tolayer3 Entity.A (s.buffer (modSlot (s.A_base + (i : Int)))))) := by
  induction l with
  | nil => intro st evs; simp [pure_eq_ok]
  | cons i l ih =>
    intro st evs
    rw [List.foldlM_cons, A_timerinterrupt_body_eq s h0, ok_bind]
    by_cases hcond : resendTest s i = true
    · rw [if_pos hcond, ih, List.filter_cons_of_pos hcond]
      simp only [List.length_cons, List.map_cons, List.append_assoc, List.singleton_append]
      congr 3
      push_cast
      ring
    · rw [if_neg hcond, ih, List.filter_cons_of_neg hcond]

theorem filter_range_lt (p : Nat → Bool) (n m : Nat) (h : n ≤ m) :
    (List.range m).filter (fun i => p i && decide (i < n)) = (List.range n).filter p := by
  induction m, h using Nat.le_induction with
  | base =>
    apply List.filter_congr
    intro i hi
    simp [List.mem_range.mp hi]
  | succ m hm ih =>
    rw [List.range_succ, List.filter_append, ih]
    simp
    omega

theorem A_timerinterrupt_ok (s : Sender) (st : Stats) (hb0 : 0 ≤ s.A_base) :
    ∃ st' evs, A_timerinterrupt s st = .ok (s, st', evs) := by
  unfold A_timerinterrupt
  rw [A_timerinterrupt_fold s hb0]
  exact ⟨_, _, rfl⟩

theorem B_input_deliver_run (k : Nat) : ∀ (fuel : Nat) (r : Receiver),
    0 ≤ r.B_expected → r.B_expected < SEQSPACE → k ≤ SEQSPACE →
    (∀ i : Nat, i < k → r.B_received (modSlot (r.B_expected + (i : Int))) = true) →
    (k < SEQSPACE → r.B_received (modSlot (r.B_expected + (k : Int))) = false) →
    k < fuel →
    B_input_deliver fuel r =
      .ok ({ r with B_received := clearRun r.B_received r.B_expected k,
                    B_expected := (r.B_expected + (k : Int)) % (SEQSPACE : Int) },
           (List.range k).map (fun (i : Nat) =>
             Event.tolayer5 Entity.B (r.B_buffer (modSlot (r.B_expected + (i : Int)))).payload)) := by
  induction k with
  | zero =>
    intro fuel r h0 h1 _ _ hstop hfuel
    obtain ⟨f, rfl⟩ : ∃ f, fuel = f + 1 := ⟨fuel - 1, by omega⟩
    have hs := hstop (by decide)
    simp only [Nat.cast_zero, add_zero] at hs
    simp only [B_input_deliver, slot_of_range _ h0 h1, ok_bind]
    rw [if_neg (by simp [hs]), clearRun_zero]
    have e2 : (r.B_expected + ((0 : Nat) : Int)) % (SEQSPACE : Int) = r.B_expected := by
      simp only [SEQSPACE, Nat.cast_ofNat] at *; omega
    rw [e2]
    rfl
  | succ k ih =>
    intro fuel r h0 h1 hk hset hstop hfuel
    obtain ⟨f, rfl⟩ : ∃ f, fuel = f + 1 := ⟨fuel - 1, by omega⟩
    have hb := hset 0 (by omega)
    simp only [Nat.cast_zero, add_zero] at hb
    have hnext : cmod (r.B_expected + 1) SEQSPACE = (r.B_expected + 1) % (SEQSPACE : Int) :=
      cmod_of_nonneg _ (by omega)
    have hn0 : 0 ≤ (r.B_expected + 1) % (SEQSPACE : Int) := by
      simp only [SEQSPACE, Nat.cast_ofNat] at *; omega
    have hn1 : (r.B_expected + 1) % (SEQSPACE : Int) < SEQSPACE := by
      simp only [SEQSPACE, Nat.cast_ofNat] at *; omega
    have key := ih f
      { r with B_received := setSlot r.B_received (modSlot r.B_expected) false,
               B_expected := (r.B_expected + 1) % (SEQSPACE : Int) } hn0 hn1 (by omega)
      (run_step_set r.B_received r.B_expected k hk hset)
      (run_step_stop r.B_received r.B_expected k hstop)
      (by omega)
    simp only [B_input_deliver, slot_of_range _ h0 h1, ok_bind]
    rw [if_pos hb, hnext, key]
    simp only [ok_bind, pure_eq_ok, clearRun_step, base_step]
    congr 2
    rw [List.range_succ_eq_map, List.map_cons, List.map_map]
    congr 1
    · simp
    · apply List.map_congr_left
      intro i _
      simp only [Function.comp]
      have e : modSlot ((r.B_expected + 1) % (SEQSPACE : Int) + (i : Int))
          = modSlot (r.B_expected + ((i.succ : Nat) : Int)) := by
        apply modSlot_congr
        simp only [SEQSPACE, Nat.cast_ofNat, Nat.succ_eq_add_one]; push_cast; omega
      rw [e]

theorem B_input_eq (fuel : Nat) (r : Receiver) (st : Stats) (packet : pkt)
    (hfuel : SEQSPACE < fuel) (he0 : 0 ≤ r.B_expected) (he1 : r.B_expected < SEQSPACE)
    (hc : IsCorrupted packet = false)
    (hs0 : 0 ≤ packet.seqnum) (hs1 : packet.seqnum < SEQSPACE) :
    B_input fuel r st packet
      = .ok ({ B_received := clearRun (setSlot r.B_received (modSlot packet.seqnum) true)
                 r.B_expected
                 (runLength (setSlot r.B_received (modSlot packet.seqnum) true) r.B_expected),
               B_buffer := (if r.B_received (modSlot packet.seqnum) then r.B_buffer
                 else setSlot r.B_buffer (modSlot packet.seqnum) packet),
               B_expected := (r.B_expected +
                 (runLength (setSlot r.B_received (modSlot packet.seqnum) true) r.B_expected : Int))
                   % (SEQSPACE : Int) },
             { st with packets_received := st.packets_received + 1 },
             (List.range (runLength (setSlot r.B_received (modSlot packet.seqnum) true)
                 r.B_expected)).map
               (fun (n : Nat) => Event.tolayer5 Entity.B
                 ((if r.B_received (modSlot packet.seqnum) then r.B_buffer
                   else setSlot r.B_buffer (modSlot packet.seqnum) packet)
                  (modSlot (r.B_expected + (n : Int)))).payload)
             ++ [Event.tolayer3 Entity.B
                  { seqnum := 0, acknum := packet.seqnum,
                    checksum := ComputeChecksum ⟨0, packet.seqnum, 0, fun _ => 48⟩,
                    payload := fun _ => 48 }]) := by
  have hrun := fun (buf : Fin SEQSPACE → pkt) =>
    B_input_deliver_run (runLength (setSlot r.B_received (modSlot packet.seqnum) true) r.B_expected)
    fuel { r with B_received := setSlot r.B_received (modSlot packet.seqnum) true, B_buffer := buf }
    he0 he1 (runLength_le _ _) (runLength_set _ _) (runLength_stop _ _)
    (lt_of_le_of_lt (runLength_le _ _) hfuel)
  unfold B_input
  rw [hc]
  simp only [Bool.not_false, if_true, slot_of_range _ hs0 hs1, ok_bind]
  cases hrecv : r.B_received (modSlot packet.seqnum)
  · simp only [Bool.not_false, if_true, Bool.false_eq_true, if_false]
    rw [hrun]
    rfl
  · simp only [Bool.not_true, Bool.false_eq_true, if_false, if_true]
    have hr := hrun r.B_buffer
    rw [setSlot_id _ _ _ hrecv] at hr ⊢
    rw [hr]
    rfl

theorem senderInv_init (buf : Fin SEQSPACE → pkt) (st : Stats) :
    SenderInv (senderInit buf st) where
  base0 := by show (0 : Int) ≤ 0; decide
  base1 := by show (0 : Int) < 7; decide
  next0 := by show (0 : Int) ≤ 0; decide
  next1 := by show (0 : Int) < 7; decide
  count := by show ((0 : Nat) : Int) = ((0 : Nat) : Int) + (0 - 0) % 7; decide
  le := by show ((0 : Int) - 0) % 7 ≤ 6; decide
  clear := fun _ _ => rfl

theorem senderInv_output (g : SenderRun) (message : msg) (hinv : SenderInv g) :
    ∃ g', senderStep 0 g (SenderEvent.output message) = .ok g' ∧ SenderInv g' := by
  obtain ⟨hb0, hb1, hn0, hn1, hcount, hle, hclear⟩ := hinv
  by_cases hw : (g.sender.A_nextseqnum + SEQSPACE - g.sender.A_base) % SEQSPACE < WINDOWSIZE
  · have hstep : senderStep 0 g (SenderEvent.output message)
        = .ok { g with
            sender :=
              { buffer := setSlot g.sender.buffer (modSlot g.sender.A_nextseqnum)
                  { seqnum := g.sender.A_nextseqnum, acknum := NOTINUSE,
                    checksum := ComputeChecksum
                      ⟨g.sender.A_nextseqnum, NOTINUSE, 0, fun i => message.data i⟩,
                    payload := fun i => message.data i },
                acked := setSlot g.sender.acked (modSlot g.sender.A_nextseqnum) false,
                A_base := g.sender.A_base,
                A_nextseqnum := (g.sender.A_nextseqnum + 1) % SEQSPACE },
            accepted := g.accepted + 1 } := by
      simp only [senderStep, A_output_accept_eq _ _ _ hb0 hb1 hn0 hn1 hw, ok_bind, pure_eq_ok,
        List.isEmpty_cons, Bool.false_eq_true, if_false]
    refine ⟨_, hstep, ?_⟩
    simp only [SEQSPACE, WINDOWSIZE, Nat.cast_ofNat] at *
    refine ⟨hb0, hb1, ?_, ?_, ?_, ?_, ?_⟩
    · show (0 : Int) ≤ (g.sender.A_nextseqnum + 1) % 7
      omega
    · show (g.sender.A_nextseqnum + 1) % 7 < (7 : Int)
      omega
    · show ((g.accepted + 1 : Nat) : Int)
        = (g.advanced : Int) + ((g.sender.A_nextseqnum + 1) % 7 - g.sender.A_base) % 7
      push_cast
      omega
    · show (((g.sender.A_nextseqnum + 1) % 7 - g.sender.A_base) % 7 : Int) ≤ 6
      omega
    · intro j hj
      show setSlot g.sender.acked (modSlot g.sender.A_nextseqnum) false j = false
      unfold setSlot
      split
      · rfl
      · apply hclear j
        have hj2 : (((g.sender.A_nextseqnum + 1) % 7 - g.sender.A_base) % 7 : Int)
            ≤ ((j.val : Int) - g.sender.A_base) % 7 := hj
        omega
  · have hc : cmod (g.sender.A_nextseqnum + SEQSPACE - g.sender.A_base) SEQSPACE
        = (g.sender.A_nextseqnum + SEQSPACE - g.sender.A_base) % SEQSPACE :=
      cmod_of_nonneg _ (by simp only [seq_cast] at *; omega)
    have hstep : senderStep 0 g (SenderEvent.output message)
        = .ok { g with stats := { g.stats with window_full := g.stats.window_full + 1 } } := by
      simp only [senderStep, A_output_reject_eq _ _ _ (by rw [hc]; omega), ok_bind, pure_eq_ok,
        List.isEmpty_nil, if_true, Nat.add_zero]
    exact ⟨_, hstep, ⟨hb0, hb1, hn0, hn1, hcount, hle, hclear⟩⟩

theorem senderInv_input (fuel : Nat) (hfuel : SEQSPACE < fuel) (g : SenderRun) (packet : pkt)
    (hinv : SenderInv g) (hp : ackOutstanding g.sender packet = true) :
    ∃ g', senderStep fuel g (SenderEvent.input packet) = .ok g' ∧ SenderInv g' := by
  obtain ⟨hb0, hb1, hn0, hn1, hcount, hle, hclear⟩ := hinv
  cases hcor : IsCorrupted packet
  · simp only [ackOutstanding, hcor, Bool.false_or, Bool.and_eq_true, decide_eq_true_eq] at hp
    obtain ⟨⟨ha0, ha1⟩, hwin⟩ := hp
    have hnn := Int.emod_nonneg (g.sender.A_nextseqnum - g.sender.A_base)
      (show ((SEQSPACE : Nat) : Int) ≠ 0 by decide)
    have hk7 := runLength_le (setSlot g.sender.acked (modSlot packet.acknum) true) g.sender.A_base
    have hkn : (runLength (setSlot g.sender.acked (modSlot packet.acknum) true) g.sender.A_base : Int)
        ≤ (g.sender.A_nextseqnum - g.sender.A_base) % (SEQSPACE : Int) := by
      by_contra hcon
      have hset := runLength_set (setSlot g.sender.acked (modSlot packet.acknum) true)
        g.sender.A_base ((g.sender.A_nextseqnum - g.sender.A_base) % (SEQSPACE : Int)).toNat
        (by omega)
      have hne : modSlot (g.sender.A_base +
          ((((g.sender.A_nextseqnum - g.sender.A_base) % (SEQSPACE : Int)).toNat : Nat) : Int))
          ≠ modSlot packet.acknum := by
        rw [Ne, modSlot_eq_iff]
        simp only [SEQSPACE, WINDOWSIZE, Nat.cast_ofNat] at *
        omega
      rw [setSlot_other _ _ _ _ hne] at hset
      have hcl := hclear (modSlot (g.sender.A_base +
          ((((g.sender.A_nextseqnum - g.sender.A_base) % (SEQSPACE : Int)).toNat : Nat) : Int)))
        (by rw [modSlot_val]; simp only [SEQSPACE, WINDOWSIZE, Nat.cast_ofNat] at *; omega)
      rw [hcl] at hset
      exact Bool.false_ne_true hset
    have hstep := A_input_eq fuel g.sender g.stats packet hfuel hb0 hb1 hcor ha0 ha1
    generalize runLength (setSlot g.sender.acked (modSlot packet.acknum) true) g.sender.A_base
      = k at hk7 hkn hstep
    refine ⟨_, by simp only [senderStep, hstep, ok_bind, pure_eq_ok]; rfl, ?_⟩
    simp only [SEQSPACE, WINDOWSIZE, Nat.cast_ofNat] at *
    refine ⟨?_, ?_, hn0, hn1, ?_, ?_, ?_⟩
    · show (0 : Int) ≤ (g.sender.A_base + (k : Int)) % 7
      omega
    · show (g.sender.A_base + (k : Int)) % 7 < (7 : Int)
      omega
    · show (g.accepted : Int) = ((g.advanced + k : Nat) : Int)
        + (g.sender.A_nextseqnum - (g.sender.A_base + (k : Int)) % 7) % 7
      push_cast
      omega
    · show ((g.sender.A_nextseqnum - (g.sender.A_base + (k : Int)) % 7) % 7 : Int) ≤ 6
      omega
    · intro j hj
      have hj2 : ((g.sender.A_nextseqnum - (g.sender.A_base + (k : Int)) % 7) % 7 : Int)
            ≤ ((j.val : Int) - (g.sender.A_base + (k : Int)) % 7) % 7 := hj
      show clearRun (setSlot g.sender.acked (modSlot packet.acknum) true) g.sender.A_base k j = false
      unfold clearRun
      split
      · rfl
      · rename_i hnot
        simp only [SEQSPACE, Nat.cast_ofNat] at hnot
        have hjlt := j.isLt
        have hout : (g.sender.A_nextseqnum - g.sender.A_base) % 7
            ≤ ((j.val : Int) - g.sender.A_base) % 7 := by omega
        have hne : j ≠ modSlot packet.acknum := by
          intro h
          have hv := modSlot_val packet.acknum
          rw [← h] at hv
          simp only [SEQSPACE, Nat.cast_ofNat] at hv
          omega
        rw [setSlot_other _ _ _ _ hne]
        exact hclear j hout
  · refine ⟨g, ?_, ⟨hb0, hb1, hn0, hn1, hcount, hle, hclear⟩⟩
    simp only [senderStep, A_input_corrupted_eq _ _ _ _ hcor, ok_bind, pure_eq_ok, Nat.add_zero]

theorem senderInv_timer (fuel : Nat) (g : SenderRun) (hinv : SenderInv g) :
    ∃ g', senderStep fuel g SenderEvent.timerinterrupt = .ok g' ∧ SenderInv g' := by
  obtain ⟨hb0, hb1, hn0, hn1, hcount, hle, hclear⟩ := hinv
  obtain ⟨st', evs, h⟩ := A_timerinterrupt_ok g.sender g.stats hb0
  refine ⟨{ g with stats := st' }, ?_, ⟨hb0, hb1, hn0, hn1, hcount, hle, hclear⟩⟩
  simp only [senderStep, h, ok_bind, pure_eq_ok]

theorem senderInv_run (fuel : Nat) (hfuel : SEQSPACE < fuel) (evs : List SenderEvent) :
    ∀ g : SenderRun, SenderInv g → acksOutstanding fuel g evs = true →
      ∃ g', senderRun fuel g evs = .ok g' ∧ SenderInv g' := by
  induction evs with
  | nil => intro g hinv _; exact ⟨g, rfl, hinv⟩
  | cons ev evs ih =>
    intro g hinv hadm
    simp only [acksOutstanding, Bool.and_eq_true] at hadm
    obtain ⟨hev, hrest⟩ := hadm
    have hstep : ∃ g', senderStep fuel g ev = .ok g' ∧ SenderInv g' := by
      cases ev with
      | output message => exact senderInv_output g message hinv
      | input packet => exact senderInv_input fuel hfuel g packet hinv hev
      | timerinterrupt => exact senderInv_timer fuel g hinv
    obtain ⟨g1, hg1, hinv1⟩ := hstep
    rw [hg1] at hrest
    obtain ⟨g2, hg2, hinv2⟩ := ih g1 hinv1 hrest
    refine ⟨g2, ?_, hinv2⟩
    unfold senderRun at hg2 ⊢
    rw [List.foldlM_cons, hg1, ok_bind, hg2]

theorem B_input_buffered_duplicate (fuel : Nat) (r : Receiver) (st : Stats) (packet : pkt)
    (hfuel : 0 < fuel) (he0 : 0 ≤ r.B_expected) (he1 : r.B_expected < SEQSPACE)
    (hc : IsCorrupted packet = false)
    (hs0 : 0 ≤ packet.seqnum) (hs1 : packet.seqnum < SEQSPACE)
    (hflag : r.B_received (modSlot packet.seqnum) = true)
    (hexp : r.B_received (modSlot r.B_expected) = false) :
    B_input fuel r st packet
      = .ok (r, { st with packets_received := st.packets_received + 1 },
          [Event.tolayer3 Entity.B (ackFor packet.seqnum)]) := by
  obtain ⟨f, rfl⟩ : ∃ f, fuel = f + 1 := ⟨fuel - 1, by omega⟩
  unfold B_input
  rw [hc]
  simp only [Bool.not_false, if_true, slot_of_range _ hs0 hs1, ok_bind, hflag, Bool.not_true,
    Bool.false_eq_true, if_false, B_input_deliver, slot_of_range _ he0 he1, hexp, pure_eq_ok]
  rfl

theorem window_test_mod (s : Sender) (hb0 : 0 ≤ s.A_base) (hb1 : s.A_base < SEQSPACE)
    (hn0 : 0 ≤ s.A_nextseqnum) (hn1 : s.A_nextseqnum < SEQSPACE) :
    cmod (s.A_nextseqnum + SEQSPACE - s.A_base) SEQSPACE
      = (s.A_nextseqnum - s.A_base) % (SEQSPACE : Int) := by
  rw [cmod_of_nonneg _ (by simp only [seq_cast] at *; omega)]
  simp only [seq_cast] at *
  omega

/-! ## The claims -/

/-- Claim C1 (end-to-end exactly-once in-order delivery), evaluated on the run
`duplicateRun` from `A_init` and `B_init` over the network that loses and corrupts
nothing and keeps the order (message 10 is sent and delivered, the timer goes off
before its acknowledgment arrives, the retransmitted copy and then both
acknowledgments arrive, messages 11, ..., 16 are sent and arrive): every call
returns, `A_output` accepts the messages 10, ..., 16, and when no data packet is left
in flight layer 5 has received the payloads 10, ..., 16 and then the payload 10 a
second time, so the delivered payloads are not a prefix of the accepted ones. -/
theorem duplicateRun_delivers_twice :
    ∃ net : Net,
      netRun 8 (netInit (fun _ => zeroPkt) (fun _ => zeroPkt) zeroStats) duplicateRun = .ok net ∧
      net.dataInFlight = [] ∧
      net.accepted = [(constMsg 10).data, (constMsg 11).data, (constMsg 12).data,
        (constMsg 13).data, (constMsg 14).data, (constMsg 15).data, (constMsg 16).data] ∧
      net.delivered = [(constMsg 10).data, (constMsg 11).data, (constMsg 12).data,
        (constMsg 13).data, (constMsg 14).data, (constMsg 15).data, (constMsg 16).data,
        (constMsg 10).data] ∧
      ¬ net.delivered <+: net.accepted := by
  refine ⟨_, rfl, rfl, rfl, rfl, ?_⟩
  intro h
  exact absurd h.length_le (by decide)

/-- Claim C2 (duplicate arrivals are acknowledged but not re-processed), evaluated on
the already-delivered duplicate: from `B_init` the first call of `B_input` with the
uncorrupted packet of sequence number 0 delivers it, clears its received-flag and
moves `B_expected` to 1; the second call with the same packet delivers nothing and
sends one acknowledgment with `acknum` 0, but it sets the received-flag of slot 0
again, so the flags are not as the first call left them. -/
theorem B_input_duplicate_after_delivery :
    ∃ (r1 : Receiver) (st1 : Stats) (r2 : Receiver) (st2 : Stats),
      B_input 8 (B_init (fun _ => zeroPkt)) zeroStats (dataFor 0 (constMsg 10))
        = .ok (r1, st1, [Event.tolayer5 Entity.B (constMsg 10).data,
                         Event.tolayer3 Entity.B (ackFor 0)]) ∧
      B_input 8 r1 st1 (dataFor 0 (constMsg 10))
        = .ok (r2, st2, [Event.tolayer3 Entity.B (ackFor 0)]) ∧
      r1.B_expected = 1 ∧ r2.B_expected = 1 ∧
      r1.B_received (modSlot 0) = false ∧ r2.B_received (modSlot 0) = true := by
  refine ⟨_, _, _, _, rfl, rfl, ?_, ?_, ?_, ?_⟩ <;> decide

/-- Claim C3 (outstanding-count invariant of the sender), evaluated on the run
`duplicateRunAcked` of sender, receiver and the network that loses and corrupts nothing
and keeps the order, and on `duplicateAckRun`, the calls the sender gets in it (message
10 is sent, the acknowledgment of packet 0 arrives twice, messages 11, ..., 16 are sent
and the acknowledgments of the packets 1, ..., 6 arrive; every `acknum` is in
`[0, SEQSPACE)`).  Every call returns and both runs leave the same sender: 7 sends were
accepted and `A_base` was advanced 8 times, so (sends accepted) - (advances of base)
is -1, which is not `(A_nextseqnum - A_base) mod SEQSPACE` = 6 and not in
`[0, WINDOWSIZE]`; `A_base` = 1 has advanced past `A_nextseqnum` = 0.  Nothing is in
flight and every accepted message was acknowledged, yet the next `A_output` call
refuses its message as if the window were full. -/
theorem duplicate_ack_breaks_outstanding_count :
    acksInRange duplicateAckRun = true ∧
    ∃ (g : SenderRun) (net : Net),
      senderRun 8 (senderInit (fun _ => zeroPkt) zeroStats) duplicateAckRun = .ok g ∧
      netRun 8 (netInit (fun _ => zeroPkt) (fun _ => zeroPkt) zeroStats) duplicateRunAcked
        = .ok net ∧
      net.sender = g.sender ∧
      g.accepted = 7 ∧ g.advanced = 8 ∧
      g.sender.A_base = 1 ∧ g.sender.A_nextseqnum = 0 ∧
      (g.sender.A_nextseqnum - g.sender.A_base) % SEQSPACE = 6 ∧
      ¬ ((g.accepted : Int) - g.advanced
          = (g.sender.A_nextseqnum - g.sender.A_base) % SEQSPACE) ∧
      ¬ (0 ≤ (g.accepted : Int) - g.advanced) ∧
      net.dataInFlight = [] ∧ net.ackInFlight = [] ∧
      net.accepted.length = 7 ∧ net.stats.new_ACKs = 8 ∧
      A_output net.sender net.stats (constMsg 17)
        = .ok (net.sender, { net.stats with window_full := net.stats.window_full + 1 }, []) := by
  refine ⟨by decide, _, _, rfl, rfl, rfl, ?_, ?_, ?_, ?_, ?_, ?_, ?_, rfl, rfl, rfl, ?_, rfl⟩ <;>
    decide

/-- The outstanding count as long as no acknowledgment is for a packet that is no longer
outstanding: in every state reached from `A_init` by a sequence of `A_output`, `A_input`
and `A_timerinterrupt` calls in which every packet given to `A_input` is corrupted or is
uncorrupted with an `acknum` that is the sequence number of a packet outstanding at
that moment, every call returns, and (sends accepted so far) - (times `A_base` was
advanced so far) equals `(A_nextseqnum - A_base) mod SEQSPACE` and lies in
`[0, WINDOWSIZE]`; in particular the base was advanced no more often than sends were
accepted. -/
theorem sender_outstanding_count (fuel : Nat) (hfuel : SEQSPACE < fuel)
    (buf : Fin SEQSPACE → pkt) (st : Stats) (evs : List SenderEvent)
    (hacks : acksOutstanding fuel (senderInit buf st) evs = true) :
    ∃ g : SenderRun,
      senderRun fuel (senderInit buf st) evs = .ok g ∧
      (g.accepted : Int) - g.advanced
        = (g.sender.A_nextseqnum - g.sender.A_base) % SEQSPACE ∧
      0 ≤ (g.accepted : Int) - g.advanced ∧
      (g.accepted : Int) - g.advanced ≤ WINDOWSIZE ∧
      g.advanced ≤ g.accepted := by
  obtain ⟨g, hrun, hinv⟩ := senderInv_run fuel hfuel evs _ (senderInv_init buf st) hacks
  obtain ⟨_, _, _, _, hcount, hle, _⟩ := hinv
  have hnn := Int.emod_nonneg (g.sender.A_nextseqnum - g.sender.A_base)
    (show ((SEQSPACE : Nat) : Int) ≠ 0 by decide)
  refine ⟨g, hrun, by omega, by omega, by omega, by omega⟩

/-- The theorem `sender_outstanding_count` on the run `outstandingAckRun` (two sends, a
timeout, the acknowledgment of packet 1 twice, the acknowledgment of packet 0, a
corrupted packet). -/
theorem sender_outstanding_count_witness :
    SEQSPACE < 8 ∧
    acksOutstanding 8 (senderInit (fun _ => zeroPkt) zeroStats) outstandingAckRun = true ∧
    ∃ g : SenderRun,
      senderRun 8 (senderInit (fun _ => zeroPkt) zeroStats) outstandingAckRun = .ok g ∧
      (g.accepted : Int) - g.advanced
        = (g.sender.A_nextseqnum - g.sender.A_base) % SEQSPACE ∧
      0 ≤ (g.accepted : Int) - g.advanced ∧
      (g.accepted : Int) - g.advanced ≤ WINDOWSIZE ∧
      g.advanced ≤ g.accepted :=
  ⟨by decide, by decide,
   sender_outstanding_count 8 (by decide) (fun _ => zeroPkt) zeroStats outstandingAckRun
     (by decide)⟩

/-- Claim C4 (accepted send): for every sender state with `A_base` and `A_nextseqnum`
in `[0, SEQSPACE)` and `(A_nextseqnum + SEQSPACE - A_base) mod SEQSPACE < WINDOWSIZE`,
and every message, `A_output` returns; it builds the packet `p` with
`seqnum = A_nextseqnum`, `acknum = -1`, the 20 bytes of the message as payload and
`checksum = ComputeChecksum p`; it makes exactly the calls `tolayer3(A, p)` and then
`starttimer(A, 16)`; afterwards `buffer[old A_nextseqnum] = p`,
`acked[old A_nextseqnum] = false`, `A_nextseqnum = (old A_nextseqnum + 1) mod SEQSPACE`,
and `A_base`, every other buffer slot, every other flag and the counters are
unchanged. -/
theorem A_output_accepts (s : Sender) (st : Stats) (message : msg)
    (hb : 0 ≤ s.A_base ∧ s.A_base < SEQSPACE)
    (hn : 0 ≤ s.A_nextseqnum ∧ s.A_nextseqnum < SEQSPACE)
    (hw : (s.A_nextseqnum + SEQSPACE - s.A_base) % SEQSPACE < WINDOWSIZE) :
    ∃ (p : pkt) (s' : Sender),
      A_output s st message
        = .ok (s', st, [Event.tolayer3 Entity.A p, Event.starttimer Entity.A 16]) ∧
      p.seqnum = s.A_nextseqnum ∧ p.acknum = -1 ∧ p.payload = message.data ∧
      p.checksum = ComputeChecksum p ∧
      ((modSlot s.A_nextseqnum).val : Int) = s.A_nextseqnum ∧
      s'.buffer (modSlot s.A_nextseqnum) = p ∧
      s'.acked (modSlot s.A_nextseqnum) = false ∧
      s'.A_nextseqnum = (s.A_nextseqnum + 1) % SEQSPACE ∧
      s'.A_base = s.A_base ∧
      (∀ j, j ≠ modSlot s.A_nextseqnum → s'.buffer j = s.buffer j ∧ s'.acked j = s.acked j) := by
  obtain ⟨hb0, hb1⟩ := hb
  obtain ⟨hn0, hn1⟩ := hn
  refine ⟨_, _, A_output_accept_eq s st message hb0 hb1 hn0 hn1 hw, rfl, rfl, rfl, rfl,
    ?_, ?_, ?_, rfl, rfl, ?_⟩
  · rw [modSlot_val]; simp only [seq_cast] at *; omega
  · exact setSlot_same _ _ _
  · exact setSlot_same _ _ _
  · intro j hj
    exact ⟨setSlot_other _ _ _ _ hj, setSlot_other _ _ _ _ hj⟩

/-- Witness of C4: a fourth send with three packets outstanding gets sequence number 3
and moves `A_nextseqnum` to 4. -/
theorem A_output_accepts_witness :
    (0 ≤ threeOutstanding.A_base ∧ threeOutstanding.A_base < SEQSPACE) ∧
    (0 ≤ threeOutstanding.A_nextseqnum ∧ threeOutstanding.A_nextseqnum < SEQSPACE) ∧
    (threeOutstanding.A_nextseqnum + SEQSPACE - threeOutstanding.A_base) % SEQSPACE
      < WINDOWSIZE ∧
    ∃ (p : pkt) (s' : Sender),
      A_output threeOutstanding zeroStats (constMsg 13)
        = .ok (s', zeroStats, [Event.tolayer3 Entity.A p, Event.starttimer Entity.A 16]) ∧
      p.seqnum = 3 ∧ p.acknum = -1 ∧ p.payload = (constMsg 13).data ∧
      p.checksum = ComputeChecksum p ∧
      s'.A_nextseqnum = 4 ∧ s'.A_base = 0 := by
  obtain ⟨p, s', h, hseq, hack, hpay, hck, -, -, -, hnext, hbase, -⟩ :=
    A_output_accepts threeOutstanding zeroStats (constMsg 13) (by decide) (by decide) (by decide)
  exact ⟨by decide, by decide, by decide, p, s', h, hseq, hack, hpay, hck, hnext, hbase⟩

/-- Claim C5 (rejected send leaves the sender untouched): for every sender state in
which `(A_nextseqnum + SEQSPACE - A_base) % SEQSPACE` (with `%` the operator of the
code, which is the mathematical `mod` whenever `A_base` and `A_nextseqnum` are in
`[0, SEQSPACE)`, see `window_test_mod`) is at least `WINDOWSIZE`, and every message,
`A_output` returns the sender state it was given (base, next sequence number, every
buffer slot and every flag), makes no emulator call (no packet transmitted, no timer
started), and adds exactly one to the counter `window_full`, leaving the other
counters as they were. -/
theorem A_output_rejects (s : Sender) (st : Stats) (message : msg)
    (hw : (WINDOWSIZE : Int) ≤ cmod (s.A_nextseqnum + SEQSPACE - s.A_base) SEQSPACE) :
    A_output s st message
      = .ok (s, { st with window_full := st.window_full + 1 }, []) :=
  A_output_reject_eq s st message hw

/-- Witness of C5: a send offered to a sender with a full window. -/
theorem A_output_rejects_witness :
    (WINDOWSIZE : Int)
      ≤ cmod (fullWindow.A_nextseqnum + SEQSPACE - fullWindow.A_base) SEQSPACE ∧
    A_output fullWindow zeroStats (constMsg 16)
      = .ok (fullWindow, { zeroStats with window_full := zeroStats.window_full + 1 }, []) :=
  ⟨by decide, A_output_rejects fullWindow zeroStats (constMsg 16) (by decide)⟩

/-- Claim C6 (timer expiry retransmits exactly the unacknowledged in-window packets):
for every sender state with `A_base` and `A_nextseqnum` in `[0, SEQSPACE)`, with
`n = (A_nextseqnum - A_base) mod SEQSPACE`, `A_timerinterrupt` returns with the sender
state unchanged; its emulator calls are `tolayer3(A, buffer[(A_base + i) mod SEQSPACE])`
for exactly those `i` in `[0, n)` whose flag `acked[(A_base + i) mod SEQSPACE]` is
false, in ascending order of `i`, followed by one single `starttimer(A, 16)`; the
counter `packets_resent` grows by the number of retransmitted packets. -/
theorem A_timerinterrupt_retransmits (s : Sender) (st : Stats)
    (hb : 0 ≤ s.A_base ∧ s.A_base < SEQSPACE)
    (hn : 0 ≤ s.A_nextseqnum ∧ s.A_nextseqnum < SEQSPACE) :
    ∃ (n : Nat) (resent : List Nat),
      (n : Int) = (s.A_nextseqnum - s.A_base) % SEQSPACE ∧
      resent = (List.range n).filter
        (fun (i : Nat) => !s.acked (modSlot (s.A_base + (i : Int)))) ∧
      A_timerinterrupt s st
        = .ok (s, { st with packets_resent := st.packets_resent + resent.length },
            resent.map
              (fun (i : Nat) => Event.tolayer3 Entity.A (s.buffer (modSlot (s.A_base + (i : Int)))))
              ++ [Event.starttimer Entity.A 16]) := by
  obtain ⟨hb0, hb1⟩ := hb
  obtain ⟨hn0, hn1⟩ := hn
  have hc : cmod (s.A_nextseqnum + SEQSPACE - s.A_base) SEQSPACE
      = (s.A_nextseqnum + SEQSPACE - s.A_base) % SEQSPACE :=
    cmod_of_nonneg _ (by simp only [seq_cast] at *; omega)
  have hnn := Int.emod_nonneg (s.A_nextseqnum - s.A_base)
    (show ((SEQSPACE : Nat) : Int) ≠ 0 by decide)
  have hnlt := Int.emod_lt_of_pos (s.A_nextseqnum - s.A_base)
    (show (0 : Int) < ((SEQSPACE : Nat) : Int) by decide)
  refine ⟨((s.A_nextseqnum - s.A_base) % SEQSPACE).toNat, _, by omega, rfl, ?_⟩
  unfold A_timerinterrupt
  rw [A_timerinterrupt_fold s hb0]
  simp only [ok_bind, pure_eq_ok, List.nil_append]
  have hfil : (List.range WINDOWSIZE).filter (resendTest s)
      = (List.range ((s.A_nextseqnum - s.A_base) % SEQSPACE).toNat).filter
          (fun (i : Nat) => !s.acked (modSlot (s.A_base + (i : Int)))) := by
    rw [← filter_range_lt (fun (i : Nat) => !s.acked (modSlot (s.A_base + (i : Int))))
      ((s.A_nextseqnum - s.A_base) % SEQSPACE).toNat WINDOWSIZE
      (by simp only [SEQSPACE, WINDOWSIZE, Nat.cast_ofNat] at *; omega)]
    apply List.filter_congr
    intro i _
    unfold resendTest
    congr 1
    rw [hc]
    apply decide_eq_decide.mpr
    simp only [SEQSPACE, Nat.cast_ofNat] at *
    omega
  rw [hfil]

/-- Witness of C6: with the three packets 0, 1, 2 outstanding and unacknowledged,
`A_timerinterrupt` retransmits those three in order from the base and restarts the
timer once. -/
theorem A_timerinterrupt_retransmits_witness :
    (0 ≤ threeOutstanding.A_base ∧ threeOutstanding.A_base < SEQSPACE) ∧
    (0 ≤ threeOutstanding.A_nextseqnum ∧ threeOutstanding.A_nextseqnum < SEQSPACE) ∧
    A_timerinterrupt threeOutstanding zeroStats
      = .ok (threeOutstanding, { zeroStats with packets_resent := 3 },
          [Event.tolayer3 Entity.A (dataFor 0 (constMsg 10)),
           Event.tolayer3 Entity.A (dataFor 1 (constMsg 11)),
           Event.tolayer3 Entity.A (dataFor 2 (constMsg 12)),
           Event.starttimer Entity.A 16]) := by
  obtain ⟨n, resent, hn, hres, h⟩ :=
    A_timerinterrupt_retransmits threeOutstanding zeroStats (by decide) (by decide)
  have hn3 : n = 3 := by
    have h3 : (n : Int) = 3 := hn.trans (by decide)
    omega
  subst hn3
  subst hres
  exact ⟨by decide, by decide, h⟩

/-- Claim C7 (valid acknowledgment handling): for every sender state with `A_base` in
`[0, SEQSPACE)` and every uncorrupted packet with `acknum` `a` in `[0, SEQSPACE)`,
`A_input` (given fuel for more than `SEQSPACE` loop tests) returns.  With `flags` the
array `acked` after `acked[a]` has been set, and `k` the length of the maximal run of
set flags that starts cyclically at the old base (`k ≤ SEQSPACE`, the `k` slots from
the base on are set, and if `k < SEQSPACE` the next one is not): the base advances to
`(A_base + k) mod SEQSPACE` in `k` steps, exactly the `k` flags of the run are
cleared and all other flags are as in `flags`, `A_nextseqnum` and the buffer are
unchanged, no emulator call is made, the counters `total_ACKs_received` and `new_ACKs`
grow by one exactly when `acked[a]` was false before, and afterwards `acked[A_base]`
is false. -/
theorem A_input_valid_ack (fuel : Nat) (s : Sender) (st : Stats) (packet : pkt)
    (hfuel : SEQSPACE < fuel)
    (hb : 0 ≤ s.A_base ∧ s.A_base < SEQSPACE)
    (hc : IsCorrupted packet = false)
    (ha : 0 ≤ packet.acknum ∧ packet.acknum < SEQSPACE) :
    ∃ (a : Fin SEQSPACE) (flags : Fin SEQSPACE → Bool) (k : Nat) (s' : Sender),
      (a.val : Int) = packet.acknum ∧
      flags a = true ∧ (∀ j, j ≠ a → flags j = s.acked j) ∧
      k ≤ SEQSPACE ∧
      (∀ i : Nat, i < k → flags (modSlot (s.A_base + i)) = true) ∧
      (k < SEQSPACE → flags (modSlot (s.A_base + k)) = false) ∧
      A_input fuel s st packet
        = .ok (s',
            (if s.acked a then st
             else { st with total_ACKs_received := st.total_ACKs_received + 1,
                            new_ACKs := st.new_ACKs + 1 }),
            [], k) ∧
      s'.A_base = (s.A_base + k) % SEQSPACE ∧
      (∀ i : Nat, i < k → s'.acked (modSlot (s.A_base + i)) = false) ∧
      (∀ j, (∀ i : Nat, i < k → j ≠ modSlot (s.A_base + i)) → s'.acked j = flags j) ∧
      s'.A_nextseqnum = s.A_nextseqnum ∧
      s'.buffer = s.buffer ∧
      s'.acked (modSlot s'.A_base) = false := by
  obtain ⟨hb0, hb1⟩ := hb
  obtain ⟨ha0, ha1⟩ := ha
  refine ⟨modSlot packet.acknum, setSlot s.acked (modSlot packet.acknum) true,
    runLength (setSlot s.acked (modSlot packet.acknum) true) s.A_base, _,
    ?_, setSlot_same _ _ _, fun j hj => setSlot_other _ _ _ _ hj, runLength_le _ _,
    runLength_set _ _, runLength_stop _ _,
    A_input_eq fuel s st packet hfuel hb0 hb1 hc ha0 ha1, rfl, ?_, ?_, rfl, rfl, ?_⟩
  · rw [modSlot_val]; simp only [SEQSPACE, Nat.cast_ofNat] at *; omega
  · intro i hi
    exact clearRun_in _ _ _ _ hi (runLength_le _ _)
  · intro j hj
    exact clearRun_out _ _ _ _ hj
  · exact clearRun_stop _ _ _ (runLength_le _ _) (runLength_stop _ _)

/-- Witness of C7: with the packets 0, 1, 2 outstanding, the acknowledgment of packet 0
is new and advances the base by one, to 1. -/
theorem A_input_valid_ack_witness :
    SEQSPACE < 8 ∧
    (0 ≤ threeOutstanding.A_base ∧ threeOutstanding.A_base < SEQSPACE) ∧
    IsCorrupted (ackFor 0) = false ∧
    (0 ≤ (ackFor 0).acknum ∧ (ackFor 0).acknum < SEQSPACE) ∧
    (∃ (s' : Sender) (st' : Stats) (k : Nat),
      A_input 8 threeOutstanding zeroStats (ackFor 0) = .ok (s', st', [], k) ∧
      k ≤ SEQSPACE ∧ s'.A_base = (threeOutstanding.A_base + k) % SEQSPACE ∧
      s'.acked (modSlot s'.A_base) = false) ∧
    (∃ s' : Sender,
      A_input 8 threeOutstanding zeroStats (ackFor 0)
        = .ok (s', { zeroStats with total_ACKs_received := 1, new_ACKs := 1 }, [], 1) ∧
      s'.A_base = 1 ∧ s'.A_nextseqnum = 3) := by
  obtain ⟨a, flags, k, s', -, -, -, hk, -, -, h, hbase, -, -, -, -, hlast⟩ :=
    A_input_valid_ack 8 threeOutstanding zeroStats (ackFor 0) (by decide) (by decide)
      (by decide) (by decide)
  exact ⟨by decide, by decide, by decide, by decide, ⟨s', _, k, h, hk, hbase, hlast⟩,
    ⟨_, rfl, by decide, by decide⟩⟩

/-- Claim C8 (in-order delivery step of the receiver): for every receiver state with
`B_expected` in `[0, SEQSPACE)` and every uncorrupted packet with `seqnum` in
`[0, SEQSPACE)`, `B_input` (given fuel for more than `SEQSPACE` loop tests) returns.
The packet is stored in its slot, and the received-flag of the slot set, only if that
flag was clear (`buf` and `flags` are the arrays after this step).  With `k` the length
of the maximal cyclic run of set flags from `B_expected` on, the payloads of the slots
`B_expected`, `B_expected + 1`, ... (modulo `SEQSPACE`) of the run are handed to
layer 5 in that order, followed by one acknowledgment; the `k` flags of the run are
cleared, `B_expected` advances by `k` modulo `SEQSPACE`, the flags outside the run are
unchanged, and afterwards the flag of slot `B_expected` is false. -/
theorem B_input_delivers_in_order (fuel : Nat) (r : Receiver) (st : Stats) (packet : pkt)
    (hfuel : SEQSPACE < fuel)
    (he : 0 ≤ r.B_expected ∧ r.B_expected < SEQSPACE)
    (hc : IsCorrupted packet = false)
    (hs : 0 ≤ packet.seqnum ∧ packet.seqnum < SEQSPACE) :
    ∃ (i : Fin SEQSPACE) (flags : Fin SEQSPACE → Bool) (buf : Fin SEQSPACE → pkt) (k : Nat)
      (r' : Receiver) (ack : pkt),
      (i.val : Int) = packet.seqnum ∧
      flags i = true ∧ (∀ j, j ≠ i → flags j = r.B_received j) ∧
      buf = (if r.B_received i then r.B_buffer else setSlot r.B_buffer i packet) ∧
      k ≤ SEQSPACE ∧
      (∀ n : Nat, n < k → flags (modSlot (r.B_expected + n)) = true) ∧
      (k < SEQSPACE → flags (modSlot (r.B_expected + k)) = false) ∧
      B_input fuel r st packet
        = .ok (r', { st with packets_received := st.packets_received + 1 },
            (List.range k).map (fun (n : Nat) =>
              Event.tolayer5 Entity.B (buf (modSlot (r.B_expected + (n : Int)))).payload)
            ++ [Event.tolayer3 Entity.B ack]) ∧
      r'.B_expected = (r.B_expected + k) % SEQSPACE ∧
      (∀ n : Nat, n < k → r'.B_received (modSlot (r.B_expected + n)) = false) ∧
      (∀ j, (∀ n : Nat, n < k → j ≠ modSlot (r.B_expected + n)) → r'.B_received j = flags j) ∧
      r'.B_buffer = buf ∧
      r'.B_received (modSlot r'.B_expected) = false := by
  obtain ⟨he0, he1⟩ := he
  obtain ⟨hs0, hs1⟩ := hs
  refine ⟨modSlot packet.seqnum, setSlot r.B_received (modSlot packet.seqnum) true, _,
    runLength (setSlot r.B_received (modSlot packet.seqnum) true) r.B_expected, _, _,
    ?_, setSlot_same _ _ _, fun j hj => setSlot_other _ _ _ _ hj, rfl, runLength_le _ _,
    runLength_set _ _, runLength_stop _ _,
    B_input_eq fuel r st packet hfuel he0 he1 hc hs0 hs1, rfl, ?_, ?_, rfl, ?_⟩
  · rw [modSlot_val]; simp only [SEQSPACE, Nat.cast_ofNat] at *; omega
  · intro n hn
    exact clearRun_in _ _ _ _ hn (runLength_le _ _)
  · intro j hj
    exact clearRun_out _ _ _ _ hj
  · exact clearRun_stop _ _ _ (runLength_le _ _) (runLength_stop _ _)

/-- Witness of C8: from `B_init`, the arrivals with `seqnum` 2, 0, 1 deliver nothing,
then the payload of packet 0, then the payloads of packets 1 and 2, each followed by
one acknowledgment (`acknum` 2, 0, 1). -/
theorem B_input_delivers_in_order_witness :
    SEQSPACE < 8 ∧
    (0 ≤ (B_init (fun _ => zeroPkt)).B_expected ∧
      (B_init (fun _ => zeroPkt)).B_expected < SEQSPACE) ∧
    IsCorrupted (dataFor 2 (constMsg 12)) = false ∧
    (0 ≤ (dataFor 2 (constMsg 12)).seqnum ∧ (dataFor 2 (constMsg 12)).seqnum < SEQSPACE) ∧
    (∃ (k : Nat) (r' : Receiver) (st' : Stats) (evs : List Event),
      B_input 8 (B_init (fun _ => zeroPkt)) zeroStats (dataFor 2 (constMsg 12))
        = .ok (r', st', evs) ∧
      k ≤ SEQSPACE ∧ r'.B_expected = ((B_init (fun _ => zeroPkt)).B_expected + k) % SEQSPACE ∧
      r'.B_received (modSlot r'.B_expected) = false) ∧
    (∃ (r1 : Receiver) (st1 : Stats) (r2 : Receiver) (st2 : Stats) (r3 : Receiver)
       (st3 : Stats),
      B_input 8 (B_init (fun _ => zeroPkt)) zeroStats (dataFor 2 (constMsg 12))
        = .ok (r1, st1, [Event.tolayer3 Entity.B (ackFor 2)]) ∧
      B_input 8 r1 st1 (dataFor 0 (constMsg 10))
        = .ok (r2, st2, [Event.tolayer5 Entity.B (constMsg 10).data,
                         Event.tolayer3 Entity.B (ackFor 0)]) ∧
      B_input 8 r2 st2 (dataFor 1 (constMsg 11))
        = .ok (r3, st3, [Event.tolayer5 Entity.B (constMsg 11).data,
                         Event.tolayer5 Entity.B (constMsg 12).data,
                         Event.tolayer3 Entity.B (ackFor 1)]) ∧
      r3.B_expected = 3) := by
  obtain ⟨i, flags, buf, k, r', ack, -, -, -, -, hk, -, -, h, hexp, -, -, -, hlast⟩ :=
    B_input_delivers_in_order 8 (B_init (fun _ => zeroPkt)) zeroStats (dataFor 2 (constMsg 12))
      (by decide) (by decide) (by decide) (by decide)
  exact ⟨by decide, by decide, by decide, by decide, ⟨k, r', _, _, h, hk, hexp, hlast⟩,
    ⟨_, _, _, _, _, _, rfl, rfl, rfl, by decide⟩⟩

/-- Claim C9 (one acknowledgment per accepted packet): for every receiver state (its
`B_expected` is a sequence number, in `[0, SEQSPACE)`; outside that range the loop
test of `B_input` reads `B_received` out of bounds) and every uncorrupted packet with
`seqnum` in `[0, SEQSPACE)`, `B_input` returns, and its emulator calls are `tolayer5`
calls followed by exactly one `tolayer3(B, ack)`; `ack` has `acknum` equal to the
`seqnum` of the packet, whatever `B_expected` is and whether or not the packet is a
duplicate, has `seqnum` 0 and 20 payload bytes of value 48, and is not corrupted. -/
theorem B_input_one_ack (fuel : Nat) (r : Receiver) (st : Stats) (packet : pkt)
    (hfuel : SEQSPACE < fuel)
    (he : 0 ≤ r.B_expected ∧ r.B_expected < SEQSPACE)
    (hc : IsCorrupted packet = false)
    (hs : 0 ≤ packet.seqnum ∧ packet.seqnum < SEQSPACE) :
    ∃ (r' : Receiver) (st' : Stats) (delivered : List Event) (ack : pkt),
      B_input fuel r st packet = .ok (r', st', delivered ++ [Event.tolayer3 Entity.B ack]) ∧
      (∀ ev, ev ∈ delivered → ∃ d, ev = Event.tolayer5 Entity.B d) ∧
      ack.acknum = packet.seqnum ∧ ack.seqnum = 0 ∧ (∀ i, ack.payload i = 48) ∧
      IsCorrupted ack = false := by
  refine ⟨_, _, _, _, B_input_eq fuel r st packet hfuel he.1 he.2 hc hs.1 hs.2, ?_,
    rfl, rfl, fun _ => rfl, (IsCorrupted_eq_false _).mpr rfl⟩
  intro ev hev
  obtain ⟨n, -, rfl⟩ := List.mem_map.mp hev
  exact ⟨_, rfl⟩

/-- Witness of C9: the packet with `seqnum` 2 arriving right after `B_init`. -/
theorem B_input_one_ack_witness :
    SEQSPACE < 8 ∧
    (0 ≤ (B_init (fun _ => zeroPkt)).B_expected ∧
      (B_init (fun _ => zeroPkt)).B_expected < SEQSPACE) ∧
    IsCorrupted (dataFor 2 (constMsg 12)) = false ∧
    (0 ≤ (dataFor 2 (constMsg 12)).seqnum ∧ (dataFor 2 (constMsg 12)).seqnum < SEQSPACE) ∧
    ∃ (r' : Receiver) (st' : Stats) (delivered : List Event) (ack : pkt),
      B_input 8 (B_init (fun _ => zeroPkt)) zeroStats (dataFor 2 (constMsg 12))
        = .ok (r', st', delivered ++ [Event.tolayer3 Entity.B ack]) ∧
      (∀ ev, ev ∈ delivered → ∃ d, ev = Event.tolayer5 Entity.B d) ∧
      ack.acknum = (dataFor 2 (constMsg 12)).seqnum ∧ ack.seqnum = 0 ∧
      (∀ i, ack.payload i = 48) ∧
      IsCorrupted ack = false :=
  ⟨by decide, by decide, by decide, by decide,
   B_input_one_ack 8 (B_init (fun _ => zeroPkt)) zeroStats (dataFor 2 (constMsg 12))
     (by decide) (by decide) (by decide) (by decide)⟩

/-- Claim C10 (a corrupted data packet is dropped silently): for every receiver state,
every value of the counters and every packet with `IsCorrupted` true, `B_input` returns
the receiver state it was given (`B_expected`, the buffer and every received-flag) and
the counters it was given (in particular `packets_received`), and makes no emulator
call: nothing is delivered to layer 5 and no acknowledgment is sent. -/
theorem B_input_corrupted (fuel : Nat) (r : Receiver) (st : Stats) (packet : pkt)
    (hc : IsCorrupted packet = true) :
    B_input fuel r st packet = .ok (r, st, []) := by
  unfold B_input
  rw [hc]
  rfl

/-- Witness of C10: the data packet of sequence number 0 with its checksum off by one,
arriving right after `B_init`. -/
theorem B_input_corrupted_witness :
    IsCorrupted { dataFor 0 (constMsg 10) with checksum := 210 } = true ∧
    B_input 8 (B_init (fun _ => zeroPkt)) zeroStats
        { dataFor 0 (constMsg 10) with checksum := 210 }
      = .ok (B_init (fun _ => zeroPkt), zeroStats, []) :=
  ⟨by decide,
   B_input_corrupted 8 (B_init (fun _ => zeroPkt)) zeroStats
     { dataFor 0 (constMsg 10) with checksum := 210 } (by decide)⟩

/-! ## Auxiliary lemmas for the claims on the checksum, on runs and on the loops -/

theorem wrapInt_add_left (a b : Int) : wrapInt (wrapInt a + b) = wrapInt (a + b) := by
  unfold wrapInt
  omega

theorem wrapInt_of_range (x : Int) (h0 : -2147483648 ≤ x) (h1 : x ≤ 2147483647) :
    wrapInt x = x := by
  unfold wrapInt
  omega

theorem wrapInt_range (x : Int) : -2147483648 ≤ wrapInt x ∧ wrapInt x ≤ 2147483647 := by
  unfold wrapInt
  omega

theorem wrapInt_congruent (x : Int) : (wrapInt x - x) % 4294967296 = 0 := by
  unfold wrapInt
  omega

theorem wrapInt_add_ne (x d : Int) (hd : d ≠ 0) (h0 : -255 ≤ d) (h1 : d ≤ 255) :
    wrapInt x ≠ wrapInt (x + d) := by
  unfold wrapInt
  omega

theorem charValue_range (c : Byte) : -128 ≤ charValue c ∧ charValue c ≤ 127 := by
  have := c.isLt
  unfold charValue
  split <;> omega

theorem charValue_injective (a b : Byte) (h : charValue a = charValue b) : a = b := by
  have ha := a.isLt
  have hb := b.isLt
  unfold charValue at h
  apply Fin.ext
  split at h <;> split at h <;> omega

theorem foldl_wrap_eq_sum (f : Fin 20 → Int) (l : List (Fin 20)) (c : Int) :
    l.foldl (fun checksum i => wrapInt (checksum + f i)) (wrapInt c)
      = wrapInt (c + (l.map f).sum) := by
  induction l generalizing c with
  | nil => simp
  | cons a l ih =>
    simp only [List.foldl_cons, List.map_cons, List.sum_cons]
    rw [wrapInt_add_left, ih, add_assoc]

theorem ComputeChecksum_eq_wrap (p : pkt) : ComputeChecksum p = wrapInt (checksumSpec p) := by
  unfold ComputeChecksum checksumSpec
  rw [foldl_wrap_eq_sum (fun i => charValue (p.payload i))]
  simp [Fin.sum_univ_def]

theorem checksumSpec_setByte (p : pkt) (i : Fin 20) (b : Byte) :
    checksumSpec (setByte p i b)
      = checksumSpec p + (charValue b - charValue (p.payload i)) := by
  unfold checksumSpec setByte
  have : ∀ j, charValue (if j = i then b else p.payload j)
      = charValue (p.payload j) + (if j = i then charValue b - charValue (p.payload i) else 0) := by
    intro j; split <;> simp [*]
  simp only [this, Finset.sum_add_distrib, Finset.sum_ite_eq', Finset.mem_univ, if_true]
  ring

theorem checksumSpec_swapBytes (p : pkt) (i j : Fin 20) :
    checksumSpec (swapBytes p i j) = checksumSpec p := by
  unfold checksumSpec swapBytes
  congr 1
  have : ∀ k, (if k = i then p.payload j else if k = j then p.payload i else p.payload k)
      = p.payload (Equiv.swap i j k) := by
    intro k
    by_cases h1 : k = i
    · simp [h1]
    · by_cases h2 : k = j
      · subst h2
        simp [h1]
      · simp [h1, h2, Equiv.swap_apply_of_ne_of_ne h1 h2]
  simp only [this]
  exact Equiv.sum_comp (Equiv.swap i j) (fun k => charValue (p.payload k))

theorem IsCorrupted_eq_true (p : pkt) :
    IsCorrupted p = true ↔ p.checksum ≠ ComputeChecksum p := by
  unfold IsCorrupted
  split <;> simp_all

theorem A_output_range (s : Sender) (st : Stats) (message : msg)
    (hb0 : 0 ≤ s.A_base) (hb1 : s.A_base < SEQSPACE)
    (hn0 : 0 ≤ s.A_nextseqnum) (hn1 : s.A_nextseqnum < SEQSPACE) :
    ∃ s' st' evs, A_output s st message = .ok (s', st', evs) ∧
      s'.A_base = s.A_base ∧
      (0 ≤ s'.A_nextseqnum ∧ s'.A_nextseqnum < SEQSPACE) ∧
      (∀ p, p ∈ sentBy Entity.A evs → 0 ≤ p.seqnum ∧ p.seqnum < SEQSPACE) := by
  by_cases hw : (s.A_nextseqnum + SEQSPACE - s.A_base) % SEQSPACE < WINDOWSIZE
  · refine ⟨_, _, _, A_output_accept_eq s st message hb0 hb1 hn0 hn1 hw, rfl, ?_, ?_⟩
    · show 0 ≤ (s.A_nextseqnum + 1) % (SEQSPACE : Int) ∧ (s.A_nextseqnum + 1) % (SEQSPACE : Int) < SEQSPACE
      simp only [SEQSPACE, Nat.cast_ofNat] at *
      omega
    · intro p hp
      simp only [sentBy, if_true, List.mem_singleton] at hp
      subst hp
      exact ⟨hn0, hn1⟩
  · have hc : cmod (s.A_nextseqnum + SEQSPACE - s.A_base) SEQSPACE
        = (s.A_nextseqnum + SEQSPACE - s.A_base) % SEQSPACE :=
      cmod_of_nonneg _ (by simp only [seq_cast] at *; omega)
    refine ⟨_, _, _, A_output_reject_eq s st message (by rw [hc]; omega), rfl, ⟨hn0, hn1⟩, ?_⟩
    intro p hp
    simp [sentBy] at hp

theorem A_input_range (fuel : Nat) (hfuel : SEQSPACE < fuel) (s : Sender) (st : Stats)
    (packet : pkt) (hb0 : 0 ≤ s.A_base) (hb1 : s.A_base < SEQSPACE)
    (hp : ackInRange packet = true) :
    ∃ s' st' k, A_input fuel s st packet = .ok (s', st', [], k) ∧
      (0 ≤ s'.A_base ∧ s'.A_base < SEQSPACE) ∧ s'.A_nextseqnum = s.A_nextseqnum := by
  cases hcor : IsCorrupted packet
  · simp only [ackInRange, hcor, Bool.false_or, Bool.and_eq_true, decide_eq_true_eq] at hp
    refine ⟨_, _, _, A_input_eq fuel s st packet hfuel hb0 hb1 hcor hp.1 hp.2, ?_, rfl⟩
    show 0 ≤ (s.A_base + _) % (SEQSPACE : Int) ∧ (s.A_base + _) % (SEQSPACE : Int) < SEQSPACE
    simp only [SEQSPACE, Nat.cast_ofNat]
    omega
  · exact ⟨_, _, _, A_input_corrupted_eq fuel s st packet hcor, ⟨hb0, hb1⟩, rfl⟩

theorem senderRun_range (fuel : Nat) (hfuel : SEQSPACE < fuel) (evs : List SenderEvent) :
    ∀ g : SenderRun, (0 ≤ g.sender.A_base ∧ g.sender.A_base < SEQSPACE) →
      (0 ≤ g.sender.A_nextseqnum ∧ g.sender.A_nextseqnum < SEQSPACE) →
      acksInRange evs = true →
      ∃ g', senderRun fuel g evs = .ok g' ∧
        (0 ≤ g'.sender.A_base ∧ g'.sender.A_base < SEQSPACE) ∧
        (0 ≤ g'.sender.A_nextseqnum ∧ g'.sender.A_nextseqnum < SEQSPACE) := by
  induction evs with
  | nil => intro g hb hn _; exact ⟨g, rfl, hb, hn⟩
  | cons ev evs ih =>
    intro g hb hn hacks
    have hstep : ∃ g1, senderStep fuel g ev = .ok g1 ∧
        (0 ≤ g1.sender.A_base ∧ g1.sender.A_base < SEQSPACE) ∧
        (0 ≤ g1.sender.A_nextseqnum ∧ g1.sender.A_nextseqnum < SEQSPACE) ∧
        acksInRange evs = true := by
      cases ev with
      | output message =>
        obtain ⟨s', st', es, h, hbase, hnext, -⟩ :=
          A_output_range g.sender g.stats message hb.1 hb.2 hn.1 hn.2
        refine ⟨_, by simp only [senderStep, h, ok_bind, pure_eq_ok]; rfl, ?_, hnext, hacks⟩
        show 0 ≤ s'.A_base ∧ s'.A_base < SEQSPACE
        rw [hbase]; exact hb
      | input packet =>
        simp only [acksInRange, Bool.and_eq_true] at hacks
        obtain ⟨s', st', k, h, hbase, hnext⟩ :=
          A_input_range fuel hfuel g.sender g.stats packet hb.1 hb.2 hacks.1
        refine ⟨_, by simp only [senderStep, h, ok_bind, pure_eq_ok]; rfl, hbase, ?_, hacks.2⟩
        show 0 ≤ s'.A_nextseqnum ∧ s'.A_nextseqnum < SEQSPACE
        rw [hnext]; exact hn
      | timerinterrupt =>
        obtain ⟨st', es, h⟩ := A_timerinterrupt_ok g.sender g.stats hb.1
        exact ⟨{ g with stats := st' }, by simp only [senderStep, h, ok_bind, pure_eq_ok],
          hb, hn, hacks⟩
    obtain ⟨g1, hg1, hb1, hn1, hacks1⟩ := hstep
    obtain ⟨g2, hg2, hb2, hn2⟩ := ih g1 hb1 hn1 hacks1
    refine ⟨g2, ?_, hb2, hn2⟩
    unfold senderRun at hg2 ⊢
    rw [List.foldlM_cons, hg1, ok_bind, hg2]

theorem senderLog_range (fuel : Nat) (hfuel : SEQSPACE < fuel) (evs : List SenderEvent) :
    ∀ x : Sender × Stats × List pkt, (0 ≤ x.1.A_base ∧ x.1.A_base < SEQSPACE) →
      (0 ≤ x.1.A_nextseqnum ∧ x.1.A_nextseqnum < SEQSPACE) →
      (∀ p, p ∈ x.2.2 → 0 ≤ p.seqnum ∧ p.seqnum < SEQSPACE) →
      acksInRange evs = true →
      ∃ x', evs.foldlM (senderLogStep fuel) x = .ok x' ∧
        (0 ≤ x'.1.A_base ∧ x'.1.A_base < SEQSPACE) ∧
        (0 ≤ x'.1.A_nextseqnum ∧ x'.1.A_nextseqnum < SEQSPACE) ∧
        (∀ p, p ∈ x'.2.2 → 0 ≤ p.seqnum ∧ p.seqnum < SEQSPACE) := by
  induction evs with
  | nil => intro x hb hn hlog _; exact ⟨x, rfl, hb, hn, hlog⟩
  | cons ev evs ih =>
    intro x hb hn hlog hacks
    have hstep : ∃ x1, senderLogStep fuel x ev = .ok x1 ∧
        (0 ≤ x1.1.A_base ∧ x1.1.A_base < SEQSPACE) ∧
        (0 ≤ x1.1.A_nextseqnum ∧ x1.1.A_nextseqnum < SEQSPACE) ∧
        (∀ p, p ∈ x1.2.2 → 0 ≤ p.seqnum ∧ p.seqnum < SEQSPACE) ∧
        acksInRange evs = true := by
      cases ev with
      | output message =>
        obtain ⟨s', st', es, h, hbase, hnext, hsent⟩ :=
          A_output_range x.1 x.2.1 message hb.1 hb.2 hn.1 hn.2
        refine ⟨(s', st', x.2.2 ++ sentBy Entity.A es),
          by simp only [senderLogStep, h, ok_bind, pure_eq_ok], ?_, hnext, ?_, hacks⟩
        · show 0 ≤ s'.A_base ∧ s'.A_base < SEQSPACE
          rw [hbase]; exact hb
        · intro p hp
          rcases List.mem_append.mp hp with h1 | h2
          · exact hlog p h1
          · exact hsent p h2
      | input packet =>
        simp only [acksInRange, Bool.and_eq_true] at hacks
        obtain ⟨s', st', k, h, hbase, hnext⟩ :=
          A_input_range fuel hfuel x.1 x.2.1 packet hb.1 hb.2 hacks.1
        refine ⟨(s', st', x.2.2), by simp only [senderLogStep, h, ok_bind, pure_eq_ok],
          hbase, ?_, hlog, hacks.2⟩
        show 0 ≤ s'.A_nextseqnum ∧ s'.A_nextseqnum < SEQSPACE
        rw [hnext]; exact hn
      | timerinterrupt =>
        obtain ⟨st', es, h⟩ := A_timerinterrupt_ok x.1 x.2.1 hb.1
        exact ⟨(x.1, st', x.2.2), by simp only [senderLogStep, h, ok_bind, pure_eq_ok],
          hb, hn, hlog, hacks⟩
    obtain ⟨x1, hx1, hb1, hn1, hlog1, hacks1⟩ := hstep
    obtain ⟨x2, hx2, hb2, hn2, hlog2⟩ := ih x1 hb1 hn1 hlog1 hacks1
    refine ⟨x2, ?_, hb2, hn2, hlog2⟩
    rw [List.foldlM_cons, hx1, ok_bind, hx2]

theorem B_input_corrupted_eq (fuel : Nat) (r : Receiver) (st : Stats) (packet : pkt)
    (hc : IsCorrupted packet = true) :
    B_input fuel r st packet = .ok (r, st, []) := by
  unfold B_input
  rw [hc]
  rfl

theorem B_input_range (fuel : Nat) (hfuel : SEQSPACE < fuel) (r : Receiver) (st : Stats)
    (packet : pkt) (he0 : 0 ≤ r.B_expected) (he1 : r.B_expected < SEQSPACE)
    (hp : seqInRange packet = true) :
    ∃ r' st' evs, B_input fuel r st packet = .ok (r', st', evs) ∧
      (0 ≤ r'.B_expected ∧ r'.B_expected < SEQSPACE) := by
  cases hcor : IsCorrupted packet
  · simp only [seqInRange, hcor, Bool.false_or, Bool.and_eq_true, decide_eq_true_eq] at hp
    refine ⟨_, _, _, B_input_eq fuel r st packet hfuel he0 he1 hcor hp.1 hp.2, ?_⟩
    show 0 ≤ (r.B_expected + _) % (SEQSPACE : Int) ∧ (r.B_expected + _) % (SEQSPACE : Int) < SEQSPACE
    simp only [SEQSPACE, Nat.cast_ofNat]
    omega
  · exact ⟨_, _, _, B_input_corrupted_eq fuel r st packet hcor, he0, he1⟩

theorem receiverRun_range (fuel : Nat) (hfuel : SEQSPACE < fuel) (pkts : List pkt) :
    ∀ x : Receiver × Stats, (0 ≤ x.1.B_expected ∧ x.1.B_expected < SEQSPACE) →
      (∀ p, p ∈ pkts → seqInRange p = true) →
      ∃ x', receiverRun fuel x pkts = .ok x' ∧
        (0 ≤ x'.1.B_expected ∧ x'.1.B_expected < SEQSPACE) := by
  induction pkts with
  | nil => intro x he _; exact ⟨x, rfl, he⟩
  | cons p pkts ih =>
    intro x he hseqs
    obtain ⟨r', st', evs, h, he'⟩ :=
      B_input_range fuel hfuel x.1 x.2 p he.1 he.2 (hseqs p (List.mem_cons_self _ _))
    obtain ⟨x2, hx2, he2⟩ := ih (r', st') he'
      (fun q hq => hseqs q (List.mem_cons_of_mem _ hq))
    refine ⟨x2, ?_, he2⟩
    unfold receiverRun at hx2 ⊢
    rw [List.foldlM_cons, h, ok_bind]
    exact hx2

theorem countSet_setSlot_false (flags : Fin SEQSPACE → Bool) (b : Fin SEQSPACE)
    (h : flags b = true) : countSet (setSlot flags b false) + 1 = countSet flags := by
  unfold countSet setSlot
  have e : ∀ j : Fin SEQSPACE, (if flags j = true then 1 else 0)
      = (if (if j = b then false else flags j) = true then 1 else 0)
        + (if j = b then 1 else 0) := by
    intro j
    by_cases hj : j = b
    · subst hj; simp [h]
    · simp [hj]
  rw [Finset.sum_congr rfl (fun j _ => e j), Finset.sum_add_distrib]
  simp

theorem countSet_clearRun (k : Nat) : ∀ (flags : Fin SEQSPACE → Bool) (base : Int),
    k ≤ SEQSPACE →
    (∀ i : Nat, i < k → flags (modSlot (base + (i : Int))) = true) →
    countSet (clearRun flags base k) + k = countSet flags := by
  induction k with
  | zero => intro flags base _ _; rw [clearRun_zero]; rfl
  | succ k ih =>
    intro flags base hk hset
    have hb := hset 0 (by omega)
    simp only [Nat.cast_zero, add_zero] at hb
    rw [← clearRun_step, ← countSet_setSlot_false flags (modSlot base) hb,
      ← ih _ _ (by omega) (run_step_set flags base k hk hset)]
    omega

theorem clearRun_le (flags : Fin SEQSPACE → Bool) (base : Int) (k : Nat) (j : Fin SEQSPACE)
    (h : clearRun flags base k j = true) : flags j = true := by
  unfold clearRun at h
  split at h
  · exact absurd h (by decide)
  · exact h

theorem offerAll_from (msgs : List msg) : ∀ (n : Nat) (s : Sender) (st : Stats),
    s.A_base = 0 → s.A_nextseqnum = (min n WINDOWSIZE : Nat) →
    ∃ s', offerAll s st msgs
      = .ok (s', { st with window_full := st.window_full
                      + (((n + msgs.length - WINDOWSIZE) - (n - WINDOWSIZE) : Nat) : Int) },
          (msgs.enumFrom n).map (fun jm => expectedCalls jm.1 jm.2)) ∧
      s'.A_base = 0 ∧ s'.A_nextseqnum = (min (n + msgs.length) WINDOWSIZE : Nat) ∧
      (∀ j, s'.acked j = true → s.acked j = true) := by
  induction msgs with
  | nil =>
    intro n s st hb hn
    refine ⟨s, ?_, hb, by simpa using hn, fun _ h => h⟩
    simp [offerAll, pure_eq_ok]
  | cons m ms ih =>
    intro n s st hb hn
    by_cases hlt : n < WINDOWSIZE
    · have hn' : s.A_nextseqnum = (n : Int) := by
        rw [hn]; congr 1; omega
      have hacc := A_output_accept_eq s st m (by omega) (by rw [hb]; decide)
        (by omega) (by simp only [SEQSPACE, WINDOWSIZE, Nat.cast_ofNat] at *; omega)
        (by rw [hb, hn']; simp only [SEQSPACE, WINDOWSIZE, Nat.cast_ofNat] at *; omega)
      obtain ⟨s', h, hb', hn2, hfl⟩ := ih (n + 1)
        { buffer := setSlot s.buffer (modSlot s.A_nextseqnum)
            { seqnum := s.A_nextseqnum, acknum := NOTINUSE,
              checksum := ComputeChecksum ⟨s.A_nextseqnum, NOTINUSE, 0, fun i => m.data i⟩,
              payload := fun i => m.data i },
          acked := setSlot s.acked (modSlot s.A_nextseqnum) false,
          A_base := s.A_base,
          A_nextseqnum := (s.A_nextseqnum + 1) % SEQSPACE } st hb
        (by
          show (s.A_nextseqnum + 1) % (SEQSPACE : Int) = _
          rw [hn']
          simp only [SEQSPACE, WINDOWSIZE, Nat.cast_ofNat] at *
          omega)
      refine ⟨s', ?_, hb', ?_, ?_⟩
      · simp only [offerAll, hacc, ok_bind, h, pure_eq_ok, List.enumFrom_cons, List.map_cons,
          List.length_cons]
        have e1 : expectedCalls n m = [Event.tolayer3 Entity.A
            { seqnum := s.A_nextseqnum, acknum := NOTINUSE,
              checksum := ComputeChecksum ⟨s.A_nextseqnum, NOTINUSE, 0, fun i => m.data i⟩,
              payload := fun i => m.data i }, Event.starttimer Entity.A RTT] := by
          unfold expectedCalls dataFor
          rw [if_pos hlt, hn']
        rw [e1]
        congr 4
        simp only [WINDOWSIZE] at *
        omega
      · rw [hn2]; simp only [List.length_cons]; congr 1; omega
      · intro j hj
        have hset : setSlot s.acked (modSlot s.A_nextseqnum) false j = true := hfl j hj
        by_cases hj2 : j = modSlot s.A_nextseqnum
        · rw [hj2, setSlot_same] at hset
          exact absurd hset (by decide)
        · rw [setSlot_other _ _ _ _ hj2] at hset
          exact hset
    · have hmin : min n WINDOWSIZE = 6 := by
        simp only [WINDOWSIZE] at *; omega
      have hn' : s.A_nextseqnum = 6 := by
        rw [hn, hmin]; rfl
      have hrej := A_output_reject_eq s st m (by rw [hb, hn']; decide)
      obtain ⟨s', h, hb', hn2, hfl⟩ := ih (n + 1) s
        { st with window_full := st.window_full + 1 } hb
        (by rw [hn]; simp only [WINDOWSIZE] at *; congr 1; omega)
      refine ⟨s', ?_, hb', ?_, hfl⟩
      · simp only [offerAll, hrej, ok_bind, h, pure_eq_ok, List.enumFrom_cons, List.map_cons,
          List.length_cons]
        have e1 : expectedCalls n m = [] := by
          unfold expectedCalls
          rw [if_neg hlt]
        rw [e1]
        congr 4
        simp only [WINDOWSIZE] at *
        push_cast
        omega
      · rw [hn2]; simp only [List.length_cons]; congr 1; omega

theorem runLength_one (flags : Fin SEQSPACE → Bool) (base : Int)
    (h0 : flags (modSlot base) = true) (h1 : flags (modSlot (base + 1)) = false) :
    runLength flags base = 1 := by
  unfold runLength
  simp only [runAux, Nat.cast_zero, add_zero, h0, if_true, Nat.cast_one, zero_add, h1,
    Bool.false_eq_true, if_false]

theorem sendAndAck_one (fuel : Nat) (hfuel : SEQSPACE < fuel) (s : Sender) (st : Stats)
    (m : msg) (a : pkt) (c : Int) (hc0 : 0 ≤ c) (hc1 : c < SEQSPACE)
    (hbase : s.A_base = c) (hnext : s.A_nextseqnum = c) (hflags : ∀ j, s.acked j = false)
    (hcor : IsCorrupted a = false) (hack : a.acknum = c) :
    ∃ s1 st1 s2 st2,
      A_output s st m = .ok (s1, st1, [Event.tolayer3 Entity.A (dataFor c m),
        Event.starttimer Entity.A RTT]) ∧
      A_input fuel s1 st1 a = .ok (s2, st2, [], 1) ∧
      st2.window_full = st.window_full ∧
      s2.A_base = (c + 1) % (SEQSPACE : Int) ∧ s2.A_nextseqnum = (c + 1) % (SEQSPACE : Int) ∧
      (∀ j, s2.acked j = false) := by
  have hacc := A_output_accept_eq s st m (by omega) (by omega) (by omega) (by omega)
    (by rw [hbase, hnext]; simp only [SEQSPACE, WINDOWSIZE, Nat.cast_ofNat] at *; omega)
  have hfl1 : setSlot s.acked (modSlot s.A_nextseqnum) false = fun _ => false := by
    funext j
    unfold setSlot
    split
    · rfl
    · exact hflags j
  rw [hfl1] at hacc
  have hne : modSlot (c + 1) ≠ modSlot c := by
    rw [Ne, modSlot_eq_iff]
    simp only [SEQSPACE, Nat.cast_ofNat] at *
    omega
  have hk : runLength (setSlot (fun _ => false) (modSlot a.acknum) true) c = 1 := by
    apply runLength_one
    · rw [hack, setSlot_same]
    · rw [hack, setSlot_other _ _ _ _ hne]
  have hin := A_input_eq fuel
    { buffer := setSlot s.buffer (modSlot s.A_nextseqnum)
        { seqnum := s.A_nextseqnum, acknum := NOTINUSE,
          checksum := ComputeChecksum ⟨s.A_nextseqnum, NOTINUSE, 0, fun i => m.data i⟩,
          payload := fun i => m.data i },
      acked := fun _ => false, A_base := s.A_base,
      A_nextseqnum := (s.A_nextseqnum + 1) % SEQSPACE } st a hfuel
    (by show 0 ≤ s.A_base; omega) (by show s.A_base < SEQSPACE; omega) hcor (by omega) (by omega)
  simp only [hbase, hk, Nat.cast_one] at hin
  rw [hnext] at hacc hin
  rw [hbase] at hacc
  refine ⟨_, _, _, _, hacc, hin, ?_, rfl, rfl, ?_⟩
  · show (if (false : Bool) = true then st
        else { st with total_ACKs_received := st.total_ACKs_received + 1,
                       new_ACKs := st.new_ACKs + 1 }).window_full = st.window_full
    rfl
  · intro j
    show clearRun (setSlot (fun _ => false) (modSlot a.acknum) true) c 1 j = false
    unfold clearRun
    split
    · rfl
    · rename_i hnot
      have hjne : j ≠ modSlot a.acknum := by
        intro hj
        apply hnot
        rw [hj, modSlot_val, hack]
        simp only [SEQSPACE, Nat.cast_ofNat] at *
        omega
      rw [setSlot_other _ _ _ _ hjne]

theorem sentBy_append (e : Entity) (l1 l2 : List Event) :
    sentBy e (l1 ++ l2) = sentBy e l1 ++ sentBy e l2 := by
  induction l1 with
  | nil => rfl
  | cons ev l1 ih =>
    cases ev with
    | tolayer3 e' p =>
      show sentBy e (Event.tolayer3 e' p :: (l1 ++ l2))
        = sentBy e (Event.tolayer3 e' p :: l1) ++ sentBy e l2
      by_cases h : e' = e
      · simp only [sentBy, if_pos h, ih, List.cons_append]
      · simp only [sentBy, if_neg h, ih]
    | starttimer e' t =>
      show sentBy e (Event.starttimer e' t :: (l1 ++ l2))
        = sentBy e (Event.starttimer e' t :: l1) ++ sentBy e l2
      simp only [sentBy, ih]
    | tolayer5 e' d =>
      show sentBy e (Event.tolayer5 e' d :: (l1 ++ l2))
        = sentBy e (Event.tolayer5 e' d :: l1) ++ sentBy e l2
      simp only [sentBy, ih]

theorem sendAndAck_rounds (fuel : Nat) (hfuel : SEQSPACE < fuel) (b : Int)
    (rounds : List (msg × pkt)) : ∀ (n : Nat) (s : Sender) (st : Stats),
    s.A_base = (b + (n : Int)) % (SEQSPACE : Int) →
    s.A_nextseqnum = (b + (n : Int)) % (SEQSPACE : Int) →
    (∀ j, s.acked j = false) →
    (∀ (j : Nat) (m : msg) (a : pkt), rounds[j]? = some (m, a) →
      IsCorrupted a = false ∧ a.acknum = (b + ((n + j : Nat) : Int)) % (SEQSPACE : Int)) →
    ∃ s' st' evs, sendAndAck fuel s st rounds = .ok (s', st', evs) ∧
      sentBy Entity.A evs
        = (rounds.enumFrom n).map
            (fun jr => dataFor ((b + (jr.1 : Int)) % (SEQSPACE : Int)) jr.2.1) ∧
      st'.window_full = st.window_full ∧
      s'.A_base = (b + ((n + rounds.length : Nat) : Int)) % (SEQSPACE : Int) ∧
      s'.A_nextseqnum = (b + ((n + rounds.length : Nat) : Int)) % (SEQSPACE : Int) ∧
      (∀ j, s'.acked j = false) := by
  induction rounds with
  | nil =>
    intro n s st hb hn hfl _
    exact ⟨s, st, [], rfl, rfl, rfl, by simpa using hb, by simpa using hn, hfl⟩
  | cons r rounds ih =>
    intro n s st hb hn hfl hacks
    obtain ⟨m, a⟩ := r
    obtain ⟨hcor, hack⟩ := hacks 0 m a (by simp)
    simp only [Nat.add_zero] at hack
    obtain ⟨s1, st1, s2, st2, h1, h2, hwf, hb2, hn2, hfl2⟩ :=
      sendAndAck_one fuel hfuel s st m a ((b + (n : Int)) % (SEQSPACE : Int))
        (by simp only [SEQSPACE, Nat.cast_ofNat]; omega)
        (by simp only [SEQSPACE, Nat.cast_ofNat]; omega) hb hn hfl hcor hack
    have e1 : ((b + (n : Int)) % (SEQSPACE : Int) + 1) % (SEQSPACE : Int)
        = (b + ((n + 1 : Nat) : Int)) % (SEQSPACE : Int) := by
      simp only [SEQSPACE, Nat.cast_ofNat]; push_cast; omega
    obtain ⟨s3, st3, evs3, h3, hsent, hwf3, hb3, hn3, hfl3⟩ := ih (n + 1) s2 st2
      (by rw [hb2, e1]) (by rw [hn2, e1]) hfl2
      (by
        intro j m' a' hj
        have := hacks (j + 1) m' a' (by simpa using hj)
        have e : n + (j + 1) = n + 1 + j := by omega
        rw [e] at this
        exact this)
    refine ⟨s3, st3,
      [Event.tolayer3 Entity.A (dataFor ((b + (n : Int)) % (SEQSPACE : Int)) m),
        Event.starttimer Entity.A RTT] ++ [] ++ evs3,
      ?_, ?_, by rw [hwf3, hwf], ?_, ?_, hfl3⟩
    · simp only [sendAndAck, h1, ok_bind, h2, h3, pure_eq_ok]
    · rw [sentBy_append, sentBy_append, hsent]
      simp only [sentBy, if_true, List.append_nil, List.enumFrom_cons, List.map_cons,
        List.singleton_append]
    · rw [hb3]; simp only [List.length_cons]; congr 2; omega
    · rw [hn3]; simp only [List.length_cons]; congr 2; omega

theorem A_input_repeated_flag_set (fuel : Nat) (s : Sender) (st : Stats) (packet : pkt)
    (hfuel : 0 < fuel) (hb0 : 0 ≤ s.A_base) (hb1 : s.A_base < SEQSPACE)
    (hc : IsCorrupted packet = false)
    (ha0 : 0 ≤ packet.acknum) (ha1 : packet.acknum < SEQSPACE)
    (hflag : s.acked (modSlot packet.acknum) = true)
    (hbase : s.acked (modSlot s.A_base) = false) :
    A_input fuel s st packet = .ok (s, st, [], 0) := by
  obtain ⟨f, rfl⟩ : ∃ f, fuel = f + 1 := ⟨fuel - 1, by omega⟩
  unfold A_input
  rw [hc]
  simp only [Bool.not_false, if_true, slot_of_range _ ha0 ha1, ok_bind, hflag, Bool.not_true,
    Bool.false_eq_true, if_false, A_input_slide, slot_of_range _ hb0 hb1, hbase, pure_eq_ok]

/-! ## The claims on corrupted acknowledgments, the checksum, runs and the loops -/

/-- Claim C11 (a corrupted acknowledgment is ignored): for every sender state, every
value of the counters and every packet with `IsCorrupted` true, whatever its `acknum`
(also outside `[0, SEQSPACE)`), `A_input` returns the sender state it was given
(`A_base`, `A_nextseqnum`, the buffer and every flag) and the counters it was given
(in particular `total_ACKs_received` and `new_ACKs`), makes no emulator call (nothing
transmitted, no timer started), and does not advance the base. -/
theorem A_input_corrupted (fuel : Nat) (s : Sender) (st : Stats) (packet : pkt)
    (hc : IsCorrupted packet = true) :
    A_input fuel s st packet = .ok (s, st, [], 0) :=
  A_input_corrupted_eq fuel s st packet hc

/-- Witness of C11: a packet that fails the checksum test and has `acknum` 99. -/
theorem A_input_corrupted_witness :
    IsCorrupted corruptedAck = true ∧ ¬ (corruptedAck.acknum < SEQSPACE) ∧
    A_input 8 threeOutstanding zeroStats corruptedAck
      = .ok (threeOutstanding, zeroStats, [], 0) :=
  ⟨by decide, by decide, A_input_corrupted 8 threeOutstanding zeroStats corruptedAck (by decide)⟩

/-- Claim C12 (window occupancy invariant): in every state reached from `A_init` by a
sequence of `A_output`, `A_input` and `A_timerinterrupt` calls in which every
uncorrupted packet given to `A_input` has its `acknum` in `[0, SEQSPACE)`, every call
returns, `A_base` and `A_nextseqnum` both lie in `[0, SEQSPACE)`, and
`(A_nextseqnum - A_base) mod SEQSPACE` is at most `WINDOWSIZE`. -/
theorem window_occupancy (fuel : Nat) (hfuel : SEQSPACE < fuel)
    (buf : Fin SEQSPACE → pkt) (st : Stats) (evs : List SenderEvent)
    (hacks : acksInRange evs = true) :
    ∃ g : SenderRun,
      senderRun fuel (senderInit buf st) evs = .ok g ∧
      (0 ≤ g.sender.A_base ∧ g.sender.A_base < SEQSPACE) ∧
      (0 ≤ g.sender.A_nextseqnum ∧ g.sender.A_nextseqnum < SEQSPACE) ∧
      (g.sender.A_nextseqnum - g.sender.A_base) % SEQSPACE ≤ WINDOWSIZE := by
  obtain ⟨g, hg, hb, hn⟩ := senderRun_range fuel hfuel evs (senderInit buf st)
    (by show (0 : Int) ≤ 0 ∧ (0 : Int) < 7; decide)
    (by show (0 : Int) ≤ 0 ∧ (0 : Int) < 7; decide) hacks
  refine ⟨g, hg, hb, hn, ?_⟩
  simp only [SEQSPACE, WINDOWSIZE, Nat.cast_ofNat]
  omega

/-- Witness of C12: the run `duplicateAckRun` (seven sends, the acknowledgment of
packet 0 twice, then the acknowledgments of packets 1, ..., 6). -/
theorem window_occupancy_witness :
    SEQSPACE < 8 ∧ acksInRange duplicateAckRun = true ∧
    ∃ g : SenderRun,
      senderRun 8 (senderInit (fun _ => zeroPkt) zeroStats) duplicateAckRun = .ok g ∧
      (0 ≤ g.sender.A_base ∧ g.sender.A_base < SEQSPACE) ∧
      (0 ≤ g.sender.A_nextseqnum ∧ g.sender.A_nextseqnum < SEQSPACE) ∧
      (g.sender.A_nextseqnum - g.sender.A_base) % SEQSPACE ≤ WINDOWSIZE :=
  ⟨by decide, by decide,
   window_occupancy 8 (by decide) (fun _ => zeroPkt) zeroStats duplicateAckRun (by decide)⟩

/-- Claim C13 as stated fails: the packet `overflowPkt` (`seqnum` 2147483647, `acknum` 1,
every payload byte 0) has the sum `seqnum + acknum +` (sum of the integer values of the
payload bytes) `= 2147483648`, while `ComputeChecksum` returns -2147483648, the 32-bit
`int` the additions leave.  Its field `checksum` is -2147483648: `IsCorrupted` is
false, while the field differs from that sum. -/
theorem ComputeChecksum_overflow :
    overflowPkt.seqnum + overflowPkt.acknum + ∑ i : Fin 20, charValue (overflowPkt.payload i)
      = 2147483648 ∧
    ComputeChecksum overflowPkt = -2147483648 ∧
    ¬ (ComputeChecksum overflowPkt
        = overflowPkt.seqnum + overflowPkt.acknum
          + ∑ i : Fin 20, charValue (overflowPkt.payload i)) ∧
    IsCorrupted overflowPkt = false ∧
    overflowPkt.checksum ≠ checksumSpec overflowPkt ∧
    isCorruptedSpec overflowPkt = true := by
  have hsum : overflowPkt.seqnum + overflowPkt.acknum
      + ∑ i : Fin 20, charValue (overflowPkt.payload i) = 2147483648 := by
    rw [Fin.sum_univ_def]
    rfl
  have hspec : checksumSpec overflowPkt = 2147483648 := hsum
  refine ⟨hsum, rfl, ?_, rfl, ?_, ?_⟩
  · rw [hsum]
    decide
  · rw [hspec]
    decide
  · unfold isCorruptedSpec
    rw [hspec]
    decide

/-- Claim C13, amended (the corruption detector and its reference definition): for every
packet, `ComputeChecksum` is `seqnum + acknum +` the sum of the integer values of the
20 payload bytes (`checksumSpec`) wrapped around modulo 2^32 into the `int` range
`[-2^31, 2^31)`; so whenever that sum lies in the `int` range, `ComputeChecksum` is
that sum and `IsCorrupted` is the test of the field `checksum` against that sum
(`isCorruptedSpec`).  `ComputeChecksum` does not depend on the field `checksum`, and
`IsCorrupted` is true exactly when the field `checksum` differs from
`ComputeChecksum` of the packet. -/
theorem ComputeChecksum_reference (p : pkt) :
    ComputeChecksum p
      = wrapInt (p.seqnum + p.acknum + ∑ i : Fin 20, charValue (p.payload i)) ∧
    (-2147483648 ≤ ComputeChecksum p ∧ ComputeChecksum p ≤ 2147483647) ∧
    (ComputeChecksum p - checksumSpec p) % 4294967296 = 0 ∧
    (-2147483648 ≤ checksumSpec p ∧ checksumSpec p ≤ 2147483647 →
      ComputeChecksum p = p.seqnum + p.acknum + ∑ i : Fin 20, charValue (p.payload i) ∧
      IsCorrupted p = isCorruptedSpec p) ∧
    (∀ c : Int, ComputeChecksum { p with checksum := c } = ComputeChecksum p) ∧
    (IsCorrupted p = true ↔ p.checksum ≠ ComputeChecksum p) := by
  have hw := ComputeChecksum_eq_wrap p
  refine ⟨hw, ?_, ?_, ?_, fun _ => rfl, IsCorrupted_eq_true p⟩
  · rw [hw]
    exact wrapInt_range _
  · rw [hw]
    exact wrapInt_congruent _
  · intro h
    have heq : ComputeChecksum p = checksumSpec p := by
      rw [hw]
      exact wrapInt_of_range _ h.1 h.2
    refine ⟨heq, ?_⟩
    unfold isCorruptedSpec IsCorrupted
    rw [← heq]
    by_cases hc : p.checksum = ComputeChecksum p
    · rw [if_pos hc]
      exact (decide_eq_false (not_not.mpr hc)).symm
    · rw [if_neg hc]
      exact (decide_eq_true hc).symm

/-- Witness of C13 (amended): the packet with `seqnum` 3, `acknum` -1 and the payload
bytes 0, 1, ..., 19, whose sum 192 lies in the `int` range. -/
theorem ComputeChecksum_reference_witness :
    (-2147483648 ≤ checksumSpec countingPkt ∧ checksumSpec countingPkt ≤ 2147483647) ∧
    ComputeChecksum countingPkt
      = countingPkt.seqnum + countingPkt.acknum
        + ∑ i : Fin 20, charValue (countingPkt.payload i) ∧
    IsCorrupted countingPkt = isCorruptedSpec countingPkt :=
  have hspec : checksumSpec countingPkt = 192 := by
    unfold checksumSpec
    rw [Fin.sum_univ_def]
    rfl
  have hrange : -2147483648 ≤ checksumSpec countingPkt ∧
      checksumSpec countingPkt ≤ 2147483647 := by
    rw [hspec]
    decide
  ⟨hrange, (ComputeChecksum_reference countingPkt).2.2.2.1 hrange⟩

/-- Claim C14 (a fresh checksum is accepted and a single-byte corruption is detected):
for every packet `p`, the packet with `checksum := ComputeChecksum p` is not corrupted;
and for every index `i` in `[0, 20)` and every byte value `b` different from
`p.payload[i]`, replacing `payload[i]` by `b` in that packet while keeping its checksum
gives a packet for which `IsCorrupted` is true. -/
theorem single_byte_corruption_detected (p : pkt) :
    IsCorrupted { p with checksum := ComputeChecksum p } = false ∧
    ∀ (i : Fin 20) (b : Byte), b ≠ p.payload i →
      IsCorrupted (setByte { p with checksum := ComputeChecksum p } i b) = true := by
  refine ⟨(IsCorrupted_eq_false _).mpr rfl, ?_⟩
  intro i b hb
  have h1 : ComputeChecksum (setByte { p with checksum := ComputeChecksum p } i b)
      = wrapInt (checksumSpec p + (charValue b - charValue (p.payload i))) := by
    rw [ComputeChecksum_eq_wrap (setByte _ i b), checksumSpec_setByte]
    rfl
  have h2 : (setByte { p with checksum := ComputeChecksum p } i b).checksum
      = wrapInt (checksumSpec p) :=
    ComputeChecksum_eq_wrap p
  rw [IsCorrupted_eq_true, h1, h2]
  have hne : charValue b - charValue (p.payload i) ≠ 0 := fun h =>
    hb (charValue_injective _ _ (by omega))
  have hb1 := charValue_range b
  have hb2 := charValue_range (p.payload i)
  exact wrapInt_add_ne _ _ hne (by omega) (by omega)

/-- Witness of C14: in the packet with payload bytes 0, 1, ..., 19, byte 0 is replaced
by 7. -/
theorem single_byte_corruption_detected_witness :
    IsCorrupted { countingPkt with checksum := ComputeChecksum countingPkt } = false ∧
    (7 : Byte) ≠ countingPkt.payload 0 ∧
    IsCorrupted (setByte { countingPkt with checksum := ComputeChecksum countingPkt } 0 7)
      = true :=
  ⟨(single_byte_corruption_detected countingPkt).1, by decide,
   (single_byte_corruption_detected countingPkt).2 0 7 (by decide)⟩

/-- Claim C15 (sequence numbers wrap at `SEQSPACE` = 7): from every sender state with
`A_base = A_nextseqnum = b` in `[0, 7)` and no flag set, seven rounds, each an
`A_output` call followed by an `A_input` call with an uncorrupted packet whose `acknum`
is the sequence number of that round (`(b + j) mod 7` in round `j`), all return; every
send is accepted (each transmits its packet, `window_full` does not change), the
packets get the sequence numbers `b`, `b + 1`, ..., `b + 6` modulo 7 in that order, and
at the end `A_base = A_nextseqnum = b` and no flag is set. -/
theorem seqnums_wrap_after_seven (fuel : Nat) (hfuel : SEQSPACE < fuel)
    (s : Sender) (st : Stats) (b : Int) (hb : 0 ≤ b ∧ b < SEQSPACE)
    (hbase : s.A_base = b) (hnext : s.A_nextseqnum = b) (hflags : ∀ j, s.acked j = false)
    (rounds : List (msg × pkt)) (hlen : rounds.length = 7)
    (hacks : ∀ (j : Nat) (m : msg) (a : pkt), rounds[j]? = some (m, a) →
      IsCorrupted a = false ∧ a.acknum = (b + (j : Int)) % SEQSPACE) :
    ∃ (s' : Sender) (st' : Stats) (evs : List Event),
      sendAndAck fuel s st rounds = .ok (s', st', evs) ∧
      sentBy Entity.A evs
        = rounds.enum.map (fun jr => dataFor ((b + (jr.1 : Int)) % SEQSPACE) jr.2.1) ∧
      (sentBy Entity.A evs).map (fun p => p.seqnum)
        = (List.range 7).map (fun (j : Nat) => (b + (j : Int)) % SEQSPACE) ∧
      st'.window_full = st.window_full ∧
      s'.A_base = b ∧ s'.A_nextseqnum = b ∧ (∀ j, s'.acked j = false) := by
  have hb7 : (b + ((0 + rounds.length : Nat) : Int)) % (SEQSPACE : Int) = b := by
    rw [hlen]; simp only [SEQSPACE, Nat.cast_ofNat] at *; omega
  obtain ⟨s', st', evs, h, hsent, hwf, hb', hn', hfl⟩ :=
    sendAndAck_rounds fuel hfuel b rounds 0 s st
      (by rw [hbase]; simp only [SEQSPACE, Nat.cast_ofNat] at *; omega)
      (by rw [hnext]; simp only [SEQSPACE, Nat.cast_ofNat] at *; omega) hflags
      (by intro j m a hj; simpa using hacks j m a hj)
  refine ⟨s', st', evs, h, hsent, ?_, hwf, by rw [hb', hb7], by rw [hn', hb7], hfl⟩
  have hfun : ((fun p : pkt => p.seqnum) ∘
      fun (jr : Nat × msg × pkt) => dataFor ((b + (jr.1 : Int)) % (SEQSPACE : Int)) jr.2.1)
      = (fun (j : Nat) => (b + (j : Int)) % (SEQSPACE : Int)) ∘ Prod.fst := rfl
  have hfst : List.map Prod.fst (List.enumFrom 0 rounds) = List.range 7 := by
    have h1 := List.enum_map_fst rounds
    rw [hlen] at h1
    exact h1
  rw [hsent, List.map_map, hfun, ← List.map_map, hfst]

/-- Witness of C15: seven rounds from `A_base = A_nextseqnum = 3`; the sequence numbers
assigned are 3, 4, 5, 6, 0, 1, 2 and the sender is back at 3. -/
theorem seqnums_wrap_after_seven_witness :
    SEQSPACE < 8 ∧ ((0 : Int) ≤ 3 ∧ (3 : Int) < SEQSPACE) ∧
    emptyAtThree.A_base = 3 ∧ emptyAtThree.A_nextseqnum = 3 ∧
    (∀ j, emptyAtThree.acked j = false) ∧ wrapRounds.length = 7 ∧
    ∃ (s' : Sender) (st' : Stats) (evs : List Event),
      sendAndAck 8 emptyAtThree zeroStats wrapRounds = .ok (s', st', evs) ∧
      (sentBy Entity.A evs).map (fun p => p.seqnum) = [3, 4, 5, 6, 0, 1, 2] ∧
      st'.window_full = 0 ∧
      s'.A_base = 3 ∧ s'.A_nextseqnum = 3 ∧ (∀ j, s'.acked j = false) := by
  obtain ⟨s', st', evs, h, -, hseq, hwf, hb, hn, hfl⟩ :=
    seqnums_wrap_after_seven 8 (by decide) emptyAtThree zeroStats 3 (by decide) rfl rfl
      (fun _ => rfl) wrapRounds rfl
      (by
        intro j m a hj
        rcases j with _ | _ | _ | _ | _ | _ | _ | j <;>
          simp only [wrapRounds, List.getElem?_cons_zero, List.getElem?_cons_succ,
            List.getElem?_nil, Option.some.injEq, Prod.mk.injEq] at hj
        all_goals first
          | (obtain ⟨rfl, rfl⟩ := hj; decide)
          | exact absurd hj (by simp))
  exact ⟨by decide, by decide, rfl, rfl, fun _ => rfl, rfl, s', st', evs, h, hseq, hwf, hb, hn,
    hfl⟩

/-- Claim C16 (the window fills after exactly `WINDOWSIZE` sends): from `A_init`, for
every list of messages offered to `A_output` with no acknowledgment processed in
between, every call returns; call number `j` (from 0) is accepted for `j < 6`:
it transmits the packet with sequence number `j` carrying the message and starts the
timer; every later call is rejected: it makes no emulator call, and `window_full`
grows by one per rejected call.  `A_base` stays 0, `A_nextseqnum` ends at the number
of messages if that is below 6 and at 6 otherwise, and no flag is set. -/
theorem window_fills_after_six (buf : Fin SEQSPACE → pkt) (st : Stats) (msgs : List msg) :
    ∃ s' : Sender,
      offerAll (A_init buf) st msgs
        = .ok (s',
            { st with window_full := st.window_full + ((msgs.length - WINDOWSIZE : Nat) : Int) },
            msgs.enum.map (fun jm => expectedCalls jm.1 jm.2)) ∧
      s'.A_base = 0 ∧
      s'.A_nextseqnum = (min msgs.length WINDOWSIZE : Nat) ∧
      (WINDOWSIZE ≤ msgs.length → s'.A_nextseqnum = 6) ∧
      (∀ j, s'.acked j = false) := by
  obtain ⟨s', h, hb, hn, hfl⟩ := offerAll_from msgs 0 (A_init buf) st rfl rfl
  refine ⟨s', ?_, hb, by simpa using hn, ?_, ?_⟩
  · simpa [List.enum] using h
  · intro hlen
    have hmin : min (0 + msgs.length) WINDOWSIZE = 6 := by
      simp only [WINDOWSIZE] at *; omega
    rw [hn, hmin]; rfl
  · intro j
    cases hj : s'.acked j
    · rfl
    · exact absurd (hfl j hj) Bool.false_ne_true

/-- Witness of C16: seven messages from `A_init`; six are accepted with the sequence
numbers 0, ..., 5, the seventh is rejected and reported, and the state stays at
`A_base = 0`, `A_nextseqnum = 6`. -/
theorem window_fills_after_six_witness :
    WINDOWSIZE ≤ [constMsg 10, constMsg 11, constMsg 12, constMsg 13, constMsg 14, constMsg 15,
      constMsg 16].length ∧
    ∃ s' : Sender,
      offerAll (A_init (fun _ => zeroPkt)) zeroStats
          [constMsg 10, constMsg 11, constMsg 12, constMsg 13, constMsg 14, constMsg 15,
            constMsg 16]
        = .ok (s', { zeroStats with window_full := 1 },
            [[Event.tolayer3 Entity.A (dataFor 0 (constMsg 10)), Event.starttimer Entity.A 16],
             [Event.tolayer3 Entity.A (dataFor 1 (constMsg 11)), Event.starttimer Entity.A 16],
             [Event.tolayer3 Entity.A (dataFor 2 (constMsg 12)), Event.starttimer Entity.A 16],
             [Event.tolayer3 Entity.A (dataFor 3 (constMsg 13)), Event.starttimer Entity.A 16],
             [Event.tolayer3 Entity.A (dataFor 4 (constMsg 14)), Event.starttimer Entity.A 16],
             [Event.tolayer3 Entity.A (dataFor 5 (constMsg 15)), Event.starttimer Entity.A 16],
             []]) ∧
      s'.A_base = 0 ∧ s'.A_nextseqnum = 6 := by
  obtain ⟨s', h, hb, -, hn, -⟩ := window_fills_after_six (fun _ => zeroPkt) zeroStats
    [constMsg 10, constMsg 11, constMsg 12, constMsg 13, constMsg 14, constMsg 15, constMsg 16]
  exact ⟨by decide, s', h, hb, hn (by decide)⟩

/-- Claim C17 (the additive checksum is blind to payload permutations): for every packet
and all indices `i`, `j` in `[0, 20)`, the packet with the payload bytes `i` and `j`
exchanged has the same `ComputeChecksum`; so if the packet is not corrupted, the one
with the two bytes exchanged is not corrupted either. -/
theorem payload_swap_not_detected (p : pkt) (i j : Fin 20) :
    ComputeChecksum (swapBytes p i j) = ComputeChecksum p ∧
    (IsCorrupted p = false → IsCorrupted (swapBytes p i j) = false) := by
  have h : ComputeChecksum (swapBytes p i j) = ComputeChecksum p := by
    rw [ComputeChecksum_eq_wrap, ComputeChecksum_eq_wrap, checksumSpec_swapBytes]
  refine ⟨h, fun hc => ?_⟩
  rw [IsCorrupted_eq_false] at hc ⊢
  rw [h]
  exact hc

/-- Witness of C17: in the packet with payload bytes 0, 1, ..., 19 the bytes 0 and 1 are
exchanged; the payload changes and the packet still passes the checksum test. -/
theorem payload_swap_not_detected_witness :
    IsCorrupted countingPkt = false ∧
    (swapBytes countingPkt 0 1).payload 0 ≠ countingPkt.payload 0 ∧
    ComputeChecksum (swapBytes countingPkt 0 1) = ComputeChecksum countingPkt ∧
    IsCorrupted (swapBytes countingPkt 0 1) = false :=
  ⟨by decide, by decide, (payload_swap_not_detected countingPkt 0 1).1,
   (payload_swap_not_detected countingPkt 0 1).2 (by decide)⟩

/-- Claim C18 (duplicate acknowledgments are harmless to the sender), evaluated on the
acknowledgment of packet 0 arriving twice right after packet 0 was sent from `A_init`:
the first `A_input` call counts one new acknowledgment, advances `A_base` to 1 and
leaves `acked[0]` clear; the second call with the same packet sets `acked[0]` again
and counts a second new acknowledgment (`total_ACKs_received` and `new_ACKs` become
2), so the flags are not as the first call left them. -/
theorem A_input_duplicate_after_slide :
    ∃ (s0 : Sender) (st0 : Stats) (s1 : Sender) (st1 : Stats) (s2 : Sender) (st2 : Stats),
      A_output (A_init (fun _ => zeroPkt)) zeroStats (constMsg 10)
        = .ok (s0, st0, [Event.tolayer3 Entity.A (dataFor 0 (constMsg 10)),
                         Event.starttimer Entity.A 16]) ∧
      A_input 8 s0 st0 (ackFor 0) = .ok (s1, st1, [], 1) ∧
      A_input 8 s1 st1 (ackFor 0) = .ok (s2, st2, [], 0) ∧
      IsCorrupted (ackFor 0) = false ∧
      s1.A_base = 1 ∧ s2.A_base = 1 ∧ s1.A_nextseqnum = 1 ∧ s2.A_nextseqnum = 1 ∧
      s1.acked (modSlot 0) = false ∧ s2.acked (modSlot 0) = true ∧
      st1.new_ACKs = 1 ∧ st2.new_ACKs = 2 ∧
      st1.total_ACKs_received = 1 ∧ st2.total_ACKs_received = 2 := by
  refine ⟨_, _, _, _, _, _, rfl, rfl, rfl, ?_, ?_, ?_, ?_, ?_, ?_, ?_, ?_, ?_, ?_, ?_⟩ <;>
    decide

/-- Claim C19 (the two loops terminate): for every flag array and every starting index
in `[0, SEQSPACE)`, the slide loop of `A_input` and the delivery loop of `B_input`
return when given fuel for `SEQSPACE + 1` loop tests (or more), after at most
`SEQSPACE` executions of the loop body, also when all `SEQSPACE` flags are set on
entry: every execution of the body clears one set flag (the number of set flags
goes down by the number of executions) and no flag is set in the loop. -/
theorem loops_terminate (fuel : Nat) (hfuel : SEQSPACE < fuel) :
    (∀ s : Sender, 0 ≤ s.A_base → s.A_base < SEQSPACE →
      ∃ (s' : Sender) (k : Nat), A_input_slide fuel s = .ok (s', k) ∧ k ≤ SEQSPACE ∧
        countSet s'.acked + k = countSet s.acked ∧
        (∀ j, s'.acked j = true → s.acked j = true)) ∧
    (∀ r : Receiver, 0 ≤ r.B_expected → r.B_expected < SEQSPACE →
      ∃ (r' : Receiver) (evs : List Event), B_input_deliver fuel r = .ok (r', evs) ∧
        evs.length ≤ SEQSPACE ∧
        countSet r'.B_received + evs.length = countSet r.B_received ∧
        (∀ j, r'.B_received j = true → r.B_received j = true)) := by
  constructor
  · intro s h0 h1
    refine ⟨_, _, A_input_slide_run (runLength s.acked s.A_base) fuel s h0 h1
      (runLength_le _ _) (runLength_set _ _) (runLength_stop _ _)
      (lt_of_le_of_lt (runLength_le _ _) hfuel), runLength_le _ _,
      countSet_clearRun _ _ _ (runLength_le _ _) (runLength_set _ _),
      fun j hj => clearRun_le _ _ _ j hj⟩
  · intro r h0 h1
    refine ⟨_, _, B_input_deliver_run (runLength r.B_received r.B_expected) fuel r h0 h1
      (runLength_le _ _) (runLength_set _ _) (runLength_stop _ _)
      (lt_of_le_of_lt (runLength_le _ _) hfuel), ?_, ?_,
      fun j hj => clearRun_le _ _ _ j hj⟩
    · rw [List.length_map, List.length_range]; exact runLength_le _ _
    · rw [List.length_map, List.length_range]
      exact countSet_clearRun _ _ _ (runLength_le _ _) (runLength_set _ _)

/-- Witness of C19: all seven flags set and the starting index 3, with fuel for
`SEQSPACE + 1` loop tests: both loops return, the slide loop after exactly 7
executions of its body with the base back at 3 (fuel for only `SEQSPACE` tests is
used up by the 7 executions before the last, failing, test). -/
theorem loops_terminate_witness :
    SEQSPACE < SEQSPACE + 1 ∧
    (0 ≤ allAcked.A_base ∧ allAcked.A_base < SEQSPACE) ∧
    (0 ≤ allReceived.B_expected ∧ allReceived.B_expected < SEQSPACE) ∧
    (∃ (s' : Sender) (k : Nat), A_input_slide (SEQSPACE + 1) allAcked = .ok (s', k) ∧
      k ≤ SEQSPACE ∧ countSet s'.acked + k = countSet allAcked.acked) ∧
    (∃ (r' : Receiver) (evs : List Event),
      B_input_deliver (SEQSPACE + 1) allReceived = .ok (r', evs) ∧
      evs.length ≤ SEQSPACE ∧
      countSet r'.B_received + evs.length = countSet allReceived.B_received) ∧
    (∃ s' : Sender, A_input_slide (SEQSPACE + 1) allAcked = .ok (s', 7) ∧ s'.A_base = 3) ∧
    A_input_slide SEQSPACE allAcked = .error Fault.outOfFuel := by
  obtain ⟨hA, hB⟩ := loops_terminate (SEQSPACE + 1) (by decide)
  obtain ⟨s', k, h1, h2, h3, -⟩ := hA allAcked (by decide) (by decide)
  obtain ⟨r', evs, g1, g2, g3, -⟩ := hB allReceived (by decide) (by decide)
  exact ⟨by decide, by decide, by decide, ⟨s', k, h1, h2, h3⟩, ⟨r', evs, g1, g2, g3⟩,
    ⟨_, rfl, by decide⟩, rfl⟩

/-- Claim C20 (slot indexing stays in range): from `A_init` and `B_init`, for every
sequence of `A_output`, `A_input` and `A_timerinterrupt` calls in which every
uncorrupted packet given to `A_input` has its `acknum` in `[0, SEQSPACE)`, and every
sequence of `B_input` calls in which every uncorrupted packet has its `seqnum` in
`[0, SEQSPACE)`: every call returns, so no access to `buffer`, `acked`, `B_buffer` or
`B_received` had a subscript outside `[0, SEQSPACE)` (such an access is the fault
`outOfBounds`); `A_base`, `A_nextseqnum` and `B_expected` are in `[0, SEQSPACE)`
afterwards; and every packet built by `A_output` has its `seqnum` in `[0, SEQSPACE)`. -/
theorem indices_stay_in_range (fuel : Nat) (hfuel : SEQSPACE < fuel)
    (bufA bufB : Fin SEQSPACE → pkt) (st : Stats) (evs : List SenderEvent) (pkts : List pkt)
    (hacks : acksInRange evs = true)
    (hseqs : pkts.all seqInRange = true) :
    (∃ (s : Sender) (st' : Stats) (built : List pkt),
      senderLog fuel bufA st evs = .ok (s, st', built) ∧
      (0 ≤ s.A_base ∧ s.A_base < SEQSPACE) ∧
      (0 ≤ s.A_nextseqnum ∧ s.A_nextseqnum < SEQSPACE) ∧
      (∀ p, p ∈ built → 0 ≤ p.seqnum ∧ p.seqnum < SEQSPACE)) ∧
    (∃ (r : Receiver) (st' : Stats),
      receiverRun fuel (B_init bufB, st) pkts = .ok (r, st') ∧
      (0 ≤ r.B_expected ∧ r.B_expected < SEQSPACE)) := by
  constructor
  · obtain ⟨x, hx, hb, hn, hlog⟩ := senderLog_range fuel hfuel evs (A_init bufA, st, [])
      (by show (0 : Int) ≤ 0 ∧ (0 : Int) < 7; decide)
      (by show (0 : Int) ≤ 0 ∧ (0 : Int) < 7; decide)
      (by intro p hp; simp at hp) hacks
    exact ⟨x.1, x.2.1, x.2.2, hx, hb, hn, hlog⟩
  · obtain ⟨x, hx, he⟩ := receiverRun_range fuel hfuel pkts (B_init bufB, st)
      (by show (0 : Int) ≤ 0 ∧ (0 : Int) < 7; decide)
      (fun p hp => List.all_eq_true.mp hseqs p hp)
    exact ⟨x.1, x.2, hx, he⟩

/-- Witness of C20: the sender run `duplicateAckRun` and the arrivals `mixedArrivals`
(one of them a corrupted packet with `seqnum` 99). -/
theorem indices_stay_in_range_witness :
    SEQSPACE < 8 ∧ acksInRange duplicateAckRun = true ∧
    mixedArrivals.all seqInRange = true ∧
    (∃ (s : Sender) (st' : Stats) (built : List pkt),
      senderLog 8 (fun _ => zeroPkt) zeroStats duplicateAckRun = .ok (s, st', built) ∧
      (0 ≤ s.A_base ∧ s.A_base < SEQSPACE) ∧
      (0 ≤ s.A_nextseqnum ∧ s.A_nextseqnum < SEQSPACE) ∧
      (∀ p, p ∈ built → 0 ≤ p.seqnum ∧ p.seqnum < SEQSPACE)) ∧
    (∃ (r : Receiver) (st' : Stats),
      receiverRun 8 (B_init (fun _ => zeroPkt), zeroStats) mixedArrivals = .ok (r, st') ∧
      (0 ≤ r.B_expected ∧ r.B_expected < SEQSPACE)) :=
  ⟨by decide, by decide, by decide,
   indices_stay_in_range 8 (by decide) (fun _ => zeroPkt) (fun _ => zeroPkt) zeroStats
     duplicateAckRun mixedArrivals (by decide) (by decide)⟩

end SR
